import Mathlib

/-!
Shallow embedding of the html2doc repository's core converter
(`src/converters/docx_converter.py`, class `DocxConverter`) and of
`src/services/token_service.py` (`TokenService.generate_short_token`), together
with theorems settling the specification claims about them.

Conventions of the embedding:
* Python strings are Lean `String`s; character-level work is done on
  `String.toList` (`List Char`) with executable helper functions mirroring the
  Python string methods actually used by the source (`strip`, `split`,
  `startswith`, `endswith`, `in`, slicing).
* Python dicts with insertion order (CSS stylesheets, resolved style maps) are
  association lists `List (String × _)`; re-assigning an existing key replaces
  its value in place (keeping its original position), exactly as Python dicts do.
* Typographic points (python-docx `Pt`) are modelled as rationals `ℚ`.
  The source's float constants `0.75`, `12`, `28.3` become `3/4`, `12`, `283/10`;
  none of the claims depends on binary floating-point rounding.
* Fallible Python code is modelled with `Option`/`Except`.
-/

namespace Html2Doc

/-! ## Character-list string utilities (Python string-method semantics) -/

/-- Python `str.split(sep)` for a one-character separator: splits on every
occurrence, keeping empty fragments (`"a;;b".split(';') == ['a','','b']`). -/
def splitCharL (sep : Char) : List Char → List (List Char)
  | [] => [[]]
  | x :: xs =>
    if x = sep then [] :: splitCharL sep xs
    else
      match splitCharL sep xs with
      | s :: ss => (x :: s) :: ss
      | [] => [[x]]

/-- Python whitespace test used by `str.strip()` / `str.split()`. -/
def pyWs (c : Char) : Bool :=
  c = ' ' || c = '\t' || c = '\n' || c = '\r' || c = '\x0b' || c = '\x0c'

/-- Python `str.strip()` on a character list. -/
def trimL (l : List Char) : List Char :=
  ((l.dropWhile pyWs).reverse.dropWhile pyWs).reverse

/-- Splitting on every character satisfying a predicate, keeping empty
fragments. -/
def splitPredL (p : Char → Bool) : List Char → List (List Char)
  | [] => [[]]
  | x :: xs =>
    if p x then [] :: splitPredL p xs
    else
      match splitPredL p xs with
      | s :: ss => (x :: s) :: ss
      | [] => [[x]]

/-- Python `str.split()` (no argument): split on whitespace runs, dropping
empty fragments - equivalently, split at every whitespace character and keep
the nonempty fragments. -/
def splitWsL (l : List Char) : List (List Char) :=
  (splitPredL pyWs l).filter (fun t => !t.isEmpty)

/-- Python `s.split(sep, 1)` for a one-character separator, assuming the
separator occurs: the part before the first occurrence and the part after. -/
def splitFirstL (sep : Char) : List Char → (List Char × List Char)
  | [] => ([], [])
  | x :: xs =>
    if x = sep then ([], xs)
    else
      let p := splitFirstL sep xs
      (x :: p.1, p.2)

/-- String-level wrappers. -/
def pySplit (sep : Char) (s : String) : List String :=
  (splitCharL sep s.toList).map String.mk

def pyStrip (s : String) : String := String.mk (trimL s.toList)

def pySplitWs (s : String) : List String :=
  (splitWsL s.toList).map String.mk

/-- Python `c in s` for a single character. -/
def pyHasChar (c : Char) (s : String) : Bool := s.toList.contains c

/-- Does the second list begin with the first one? -/
def leadsWith : List Char → List Char → Bool
  | [], _ => true
  | _ :: _, [] => false
  | a :: as, b :: bs => a = b && leadsWith as bs

/-- Does the needle occur as a contiguous segment of the haystack? -/
def hasSubL (needle : List Char) : List Char → Bool
  | [] => leadsWith needle []
  | c :: rest => leadsWith needle (c :: rest) || hasSubL needle rest

/-- Python `sub in s` for a multi-character needle. -/
def pyHasSub (sub : String) (s : String) : Bool :=
  hasSubL sub.toList s.toList

/-- Python `s.startswith(".")`. -/
def pyStartsDot (s : String) : Bool :=
  match s.toList with
  | c :: _ => c = '.'
  | [] => false

/-- Python `s.endswith(suffix)`. -/
def pyEndsWith (suffix : String) (s : String) : Bool :=
  leadsWith suffix.toList.reverse s.toList.reverse

/-- Association-list lookup (Python `dict.get` / `d[k]` read). -/
def lookupA {α : Type} : List (String × α) → String → Option α
  | [], _ => none
  | (k, v) :: rest, key => if k = key then some v else lookupA rest key

/-- Python dict assignment `d[k] = v`: replaces the value in place when the key
exists (keeping its original insertion position), otherwise appends. -/
def updateA {α : Type} : List (String × α) → String → α → List (String × α)
  | [], key, v => [(key, v)]
  | (k, w) :: rest, key, v =>
    if k = key then (k, v) :: rest else (k, w) :: updateA rest key v

/-! ## CSS extraction (`DocxConverter._extract_css_styles`)

The source gathers the text of every `<style>` tag and processes it with
`re.sub(r'/\*.*?\*/', '', css, re.DOTALL)` followed by
`re.findall(r'([^{]+){([^}]+)}', css, re.DOTALL)`.  `extractCssRules` below
models the processing of one style-block text. -/

/-- Text after the closing `*/` of a comment, if the comment is terminated. -/
def findCommentEnd : List Char → Option (List Char)
  | [] => none
  | '*' :: '/' :: rest => some rest
  | _ :: rest => findCommentEnd rest

/-- `re.sub(r'/\*.*?\*/', '', text, flags=re.DOTALL)`: repeatedly delete the
leftmost `/* ... */` pair (non-greedy body); an unterminated `/*` is left
untouched (no later `*/` exists, so no later match is possible either).
Every step strictly shortens the text, so fuel equal to the length never runs
out. -/
def stripCommentsFuel : Nat → List Char → List Char
  | 0, l => l
  | fuel + 1, l =>
    match l with
    | [] => []
    | '/' :: '*' :: rest =>
      (match findCommentEnd rest with
       | some after => stripCommentsFuel fuel after
       | none => '/' :: '*' :: rest)
    | c :: rest => c :: stripCommentsFuel fuel rest

def stripCommentsL (l : List Char) : List Char := stripCommentsFuel l.length l

/-- Split at the first occurrence of a character: (before, at-and-after). -/
def breakAtChar (c : Char) : List Char → List Char × List Char
  | [] => ([], [])
  | x :: xs =>
    if x = c then ([], x :: xs)
    else
      let p := breakAtChar c xs
      (x :: p.1, p.2)

/-- `re.findall(r'([^{]+){([^}]+)}', text, re.DOTALL)`: repeatedly take the
leftmost match - `[^{]+` greedily stops at the first `{`, `[^}]+` greedily
stops at the first `}`; on a failed attempt the scan advances one character.
Every step strictly shortens the remaining text, so fuel equal to the length
never runs out. -/
def cssFindAllFuel : Nat → List Char → List (List Char × List Char)
  | 0, _ => []
  | fuel + 1, l =>
    match breakAtChar '{' l with
    | (sel, rest1) =>
      match rest1 with
      | [] => []
      | _ :: afterBrace =>
        if sel = [] then
          -- the scan position sits directly on a `{`: advance one character
          cssFindAllFuel fuel afterBrace
        else
          match breakAtChar '}' afterBrace with
          | (props, rest2) =>
            match rest2 with
            | [] => []   -- no `}` remains anywhere: no further match possible
            | _ :: afterClose =>
              if props = [] then
                -- `{` immediately followed by `}`: scan resumes after the `{`
                cssFindAllFuel fuel afterBrace
              else
                (sel, props) :: cssFindAllFuel fuel afterClose

def cssFindAll (l : List Char) : List (List Char × List Char) :=
  cssFindAllFuel l.length l

/-- Property parsing inside one rule body: split on `;`, skip fragments with no
`:`, split each remaining fragment at the first `:`, strip the name, strip the
value and delete `\`, `"`, `'` characters from it, keep it only if nonempty. -/
def parsePropsL (props : List Char) : List (String × String) :=
  (splitCharL ';' props).foldl
    (fun acc seg =>
      if seg.contains ':' then
        let p := splitFirstL ':' seg
        let name := String.mk (trimL p.1)
        let value := String.mk
          ((trimL p.2).filter (fun c => c ≠ '\\' && c ≠ '"' && c ≠ '\''))
        if value ≠ "" then updateA acc name value else acc
      else acc)
    []

/-- A stylesheet: selector string → property map, in Python-dict insertion
order. -/
abbrev StyleSheet := List (String × List (String × String))

/-- `DocxConverter._extract_css_styles` applied to the text of one style block:
strip comments, find all `selector { properties }` groups, split selector lists
on `,`, strip and drop empty selectors, and register the parsed property map
under each selector (later rules overwrite earlier ones per selector). -/
def extractCssRules (css : String) : StyleSheet :=
  (cssFindAll (stripCommentsL css.toList)).foldl
    (fun styles rule =>
      let selector := trimL rule.1
      if selector = [] then styles
      else
        (splitCharL ',' selector).foldl
          (fun st sl =>
            let s := String.mk (trimL sl)
            if s = "" then st
            else updateA st s (parsePropsL rule.2))
          styles)
    []

/-! ## Selector matching (`DocxConverter._selector_matches_element`)

A tree node is modelled by its tag name and attribute list; matching a
descendant selector additionally needs the chain of strict ancestors, nearest
first (BeautifulSoup's `element.parent`, `parent.parent`, ...). -/

structure Elem where
  name : String
  attrs : List (String × String)
deriving DecidableEq

/-- BeautifulSoup `element.get(key)`. -/
def getAttr (e : Elem) (key : String) : Option String := lookupA e.attrs key

/-- BeautifulSoup `element.get('class', [])`: the `class` attribute split on
whitespace into a token list. -/
def classesOf (e : Elem) : List String :=
  match getAttr e "class" with
  | none => []
  | some s => pySplitWs s

/-- The first three branches of `_selector_matches_element` (element-type,
class, element-type+class), which is all the recursive calls on the
whitespace-free tokens of a descendant selector can reach. -/
def simpleMatches (sel : String) (e : Elem) : Bool :=
  if sel = e.name then true
  else if pyStartsDot sel then (classesOf e).contains (String.mk (sel.toList.drop 1))
  else if pyHasChar '.' sel then
    let p := splitFirstL '.' sel.toList
    e.name = String.mk p.1 && (classesOf e).contains (String.mk p.2)
  else false

/-- The ancestor walk of the descendant-combinator branch: `ancestor_parts`
is consumed right-to-left (here the reversed prefix tokens are consumed
left-to-right) while climbing the ancestor chain; a non-matching ancestor is
skipped. Returns whether every token was consumed. -/
def consumeAncestors : List String → List Elem → Bool
  | [], _ => true
  | _ :: _, [] => false
  | t :: ts, a :: rest =>
    if simpleMatches t a then consumeAncestors ts rest
    else consumeAncestors (t :: ts) rest

/-- `DocxConverter._selector_matches_element(selector, element)`.  Branch order
follows the source exactly: element-type, then class (`.name`), then
element+class (contains `.`), then descendant combinator (contains a space),
else no match.  Note the class and element+class branches `return`
unconditionally, so a selector containing `.` never reaches the descendant
branch. -/
def selectorMatches (sel : String) (e : Elem) (ancs : List Elem) : Bool :=
  if sel = e.name then true
  else if pyStartsDot sel then (classesOf e).contains (String.mk (sel.toList.drop 1))
  else if pyHasChar '.' sel then
    let p := splitFirstL '.' sel.toList
    e.name = String.mk p.1 && (classesOf e).contains (String.mk p.2)
  else if pyHasChar ' ' sel then
    let parts := pySplitWs sel
    match parts.getLast? with
    | none => false  -- Python would raise IndexError here; the extractor never
                     -- produces a whitespace-only selector (selectors are
                     -- stripped and empties skipped)
    | some lastPart =>
      if simpleMatches lastPart e then
        consumeAncestors (parts.dropLast.reverse) ancs
      else false
  else false

/-! ## Style resolution (`DocxConverter._get_element_styles`) -/

/-- The ad hoc specificity of line 233-243: computed only for selectors that
already matched.  Branch order follows the source: equality with the tag name,
then leading `.`, then containing `.`, then containing a space. -/
def specificityOf (e : Elem) (sel : String) : Nat :=
  if sel = e.name then 1
  else if pyStartsDot sel then 10
  else if pyHasChar '.' sel then 11
  else if pyHasChar ' ' sel then 100 + (pySplitWs sel).length
  else 0

/-- Stable insertion into a list sorted ascending by `f`: the new element goes
after every element with a key less than or equal to its own. -/
def insertStable {α : Type} (f : α → Nat) (x : α) : List α → List α
  | [] => [x]
  | y :: ys => if f x < f y then x :: y :: ys else y :: insertStable f x ys

/-- Stable ascending sort (the semantics of Python's `list.sort(key=...)`). -/
def sortStable {α : Type} (f : α → Nat) (l : List α) : List α :=
  l.foldl (fun acc x => insertStable f x acc) []

/-- `dict.update(properties)`: fold every pair into the map in order. -/
def updateAll (base : List (String × String)) (props : List (String × String)) :
    List (String × String) :=
  props.foldl (fun acc p => updateA acc p.1 p.2) base

/-- Inline-style application (lines 256-262): split the `style` attribute on
`;`, skip fragments without `:`, and assign `name.strip() -> value.strip()`
(no quote stripping here, unlike the CSS extractor). -/
def applyInline (base : List (String × String)) (inline : String) :
    List (String × String) :=
  (splitCharL ';' inline.toList).foldl
    (fun acc seg =>
      if seg.contains ':' then
        let p := splitFirstL ':' seg
        updateA acc (String.mk (trimL p.1)) (String.mk (trimL p.2))
      else acc)
    base

/-- `DocxConverter._get_element_styles(element, css_styles)`: collect the
matching selectors in stylesheet iteration order, sort them ascending by
specificity (stably), merge their property maps in that order, then apply the
inline `style` attribute on top. -/
def getElementStyles (css : StyleSheet) (e : Elem) (ancs : List Elem) :
    List (String × String) :=
  let ms := css.filter (fun rule => selectorMatches rule.1 e ancs)
  let sorted := sortStable (fun rule => specificityOf e rule.1) ms
  let base := sorted.foldl (fun acc rule => updateAll acc rule.2) []
  match getAttr e "style" with
  | none => base
  | some inline => if inline = "" then base else applyInline base inline

/-! ## Unit conversion / style application (`DocxConverter._apply_paragraph_styles`)

Each style property is applied independently; the slices below model the
`font-size`, `color` and `text-indent` handlers of the source on the state
they touch.  python-docx `Pt` lengths are modelled as rational points. -/

/-- Numeric value of a digit list (most significant first). -/
def digitsVal (l : List Char) : Nat :=
  l.foldl (fun a c => 10 * a + (c.toNat - 48)) 0

/-- The leading group of `re.match(r'(\d+\.?\d*)', s)` with its value and the
unmatched remainder: one or more digits, an optional dot, more optional
digits.  `none` when the string does not start with a digit (the regex fails,
`re.match` returns `None`). -/
def parseDecL (l : List Char) : Option (ℚ × List Char) :=
  let ip := l.takeWhile Char.isDigit
  if ip = [] then none
  else
    let r1 := l.drop ip.length
    match r1 with
    | '.' :: r2 =>
      let fp := r2.takeWhile Char.isDigit
      some ((digitsVal ip : ℚ) + (digitsVal fp : ℚ) / ((10 : ℚ) ^ fp.length),
            r2.drop fp.length)
    | _ => some ((digitsVal ip : ℚ), r1)

/-- `DocxConverter.CN_FONT_SIZE_MAP` (Chinese traditional size tokens → Pt). -/
def cnFontSizeMap : List (String × ℚ) :=
  [("初号", 42), ("小初", 36), ("一号", 26), ("小一", 24),
   ("二号", 22), ("小二", 18), ("三号", 16), ("小三", 15),
   ("四号", 14), ("小四", 12), ("五号", 21/2), ("小五", 9),
   ("六号", 15/2), ("小六", 13/2), ("七号", 11/2), ("八号", 5)]

/-- The `font-size` handler (lines 306-328): a Chinese size token resolves via
the fixed table; otherwise `re.match(r'(\d+\.?\d*)(?:pt|px)?', s)` takes the
leading number and, when the string contains `px` anywhere, multiplies by
0.75; an unmatchable value yields no size (`None`). -/
def fontSizePt (s : String) : Option ℚ :=
  match lookupA cnFontSizeMap s with
  | some q => some q
  | none =>
    match parseDecL s.toList with
    | some p => some (if pyHasSub "px" s then p.1 * (3/4) else p.1)
    | none => none

/-- Is the character a hexadecimal digit? -/
def isHexDigitCh (c : Char) : Bool :=
  c.isDigit || ('a' ≤ c && c ≤ 'f') || ('A' ≤ c && c ≤ 'F')

/-- Numeric value of a hexadecimal digit. -/
def hexDigitVal (c : Char) : Nat :=
  if c.isDigit then c.toNat - 48
  else if 'a' ≤ c && c ≤ 'f' then c.toNat - 87
  else c.toNat - 55

/-- Python `int(s, 16)` restricted to the shapes a 2-character color slice can
take: optional surrounding whitespace, an optional sign, then one or more hex
digits; everything else raises `ValueError` (modelled as `none`). -/
def pyIntHex (l : List Char) : Option Int :=
  let core : List Char → Option Int := fun ds =>
    if ds ≠ [] && ds.all isHexDigitCh then
      some (ds.foldl (fun a c => 16 * a + (hexDigitVal c : Int)) 0)
    else none
  match trimL l with
  | '-' :: ds => (core ds).map (fun v => -v)
  | '+' :: ds => core ds
  | ds => core ds

/-- The color parse of lines 336-339: requires a leading `#`, then
`int(s[1:3], 16)`, `int(s[3:5], 16)`, `int(s[5:7], 16)`; `RGBColor` then
insists each component is an integer in 0..255, and any failure is caught
(leaving the runs untouched).  `none` models every caught-exception path and
the no-leading-`#` path alike. -/
def parseHexColor (s : String) : Option (Nat × Nat × Nat) :=
  match s.toList with
  | '#' :: tail =>
    match pyIntHex (tail.take 2), pyIntHex ((tail.drop 2).take 2),
          pyIntHex ((tail.drop 4).take 2) with
    | some r, some g, some b =>
      if 0 ≤ r && r ≤ 255 && 0 ≤ g && g ≤ 255 && 0 ≤ b && b ≤ 255 then
        some (r.toNat, g.toNat, b.toNat)
      else none
    | _, _, _ => none
  | _ => none

/-- Run font colors of a paragraph: `none` is a color never explicitly set
(inherited from the template). -/
abbrev RunColors := List (Option (Nat × Nat × Nat))

/-- The `color` handler (lines 331-347): a truthy `color` value starting with
`#` that parses sets every run to the parsed triplet (a parse failure is
caught and changes nothing; a truthy value not starting with `#` also changes
nothing); only a falsy (absent or empty) `color` takes the `else` branch that
forces every run to black (0,0,0). -/
def applyFontColor (styles : List (String × String)) (runs : RunColors) :
    RunColors :=
  let fontColor := (lookupA styles "color").getD ""
  if fontColor ≠ "" then
    match parseHexColor fontColor with
    | some rgb => runs.map (fun _ => some rgb)
    | none => runs
  else
    runs.map (fun _ => some (0, 0, 0))

/-- Paragraph state touched by the `text-indent` handler. -/
structure ParaState where
  styleName : String
  firstLineIndent : Option ℚ
deriving DecidableEq

/-- The explicit `text-indent` value parse (lines 404-432): `em` at 12 pt/em,
`px` at 0.75 pt/px, `pt` as-is, `cm` at 28.3 pt/cm; the unit suffix must both
end the string and directly follow the number for the branch's `re.match` to
succeed; anything else parses to nothing (and the handler is a no-op). -/
def textIndentPts (s : String) : Option ℚ :=
  if pyEndsWith "em" s then
    match parseDecL s.toList with
    | some p => if leadsWith ['e', 'm'] p.2 then some (p.1 * 12) else none
    | none => none
  else if pyEndsWith "px" s || pyEndsWith "pt" s then
    match parseDecL s.toList with
    | some p =>
      if leadsWith ['p', 'x'] p.2 || leadsWith ['p', 't'] p.2 then
        some (if pyEndsWith "px" s then p.1 * (3/4) else p.1)
      else none
    | none => none
  else if pyEndsWith "cm" s then
    match parseDecL s.toList with
    | some p => if leadsWith ['c', 'm'] p.2 then some (p.1 * (283/10)) else none
    | none => none
  else none

/-- The `text-indent` handler (lines 402-440): a truthy value is parsed by
`textIndentPts` and, when parseable, sets the first-line indent; a falsy
(absent or empty) value triggers the default branch, which applies the fixed
28 pt indent only when the paragraph style is `Normal` and no first-line
indent is set yet. -/
def applyTextIndent (styles : List (String × String)) (ps : ParaState) :
    ParaState :=
  let ti := (lookupA styles "text-indent").getD ""
  if ti ≠ "" then
    match textIndentPts ti with
    | some q => { ps with firstLineIndent := some q }
    | none => ps
  else
    if ps.styleName = "Normal" && ps.firstLineIndent = none then
      { ps with firstLineIndent := some 28 }
    else ps

/-! ## Table building (`DocxConverter._process_table`)

A table is modelled as its rows of cells, each cell carrying the declared
`rowspan`/`colspan` (defaulting to 1 in HTML).  The python-docx table the
source drives is modelled by the list of merged regions created so far
(`List GridRect`, all bounds inclusive); a grid position covered by no listed
region is an unmerged 1×1 cell.

Fidelity of the state abstraction to python-docx:

* `table.cell(r, c)` goes through `Table._cells`, which repeats a `tc` once
  per `gridSpan` column and resolves a `vMerge`-continue `tc` to the cell one
  row up, so it yields the `_Cell` of the covering region's anchor (its
  top-left `tc`); for an uncovered position it is the position's own fresh
  `tc`.  Hence the source's skip test
  (`table.cell(i, col)._element.getparent() != table.rows[i]._element`)
  holds exactly when the covering region's top row differs from `i`
  (`regionAt` below).
* `_Cell.merge(other)` calls `CT_Tc.merge`: `_span_dimensions` reads both
  resolved cells' extents (`top`/`left`/`bottom`/`right` of their whole
  merged regions), raises `InvalidSpanError` for inverted-L shapes
  (same top but different bottom, or same left but different right) and for
  tee shapes (one extent strictly containing the other's span on the aligned
  axis), and otherwise returns the bounding box of the two extents; then the
  `tc` at the box's top-left grid position grows to cover the whole box
  (`_grow_to` / `_span_to_width` / `_swallow_next_tc`).  When every existing
  region that meets the box lies entirely inside it, this absorbs those
  regions and the box becomes a single new region.  When some region crosses
  the box boundary, python-docx raises (`InvalidSpanError` from
  `_swallow_next_tc`, or `ValueError` from `tc_at_grid_col`) or leaves `tc`
  geometry that no region list describes; `dxMergeOp` collapses all those
  outcomes into `SpanError.growthCollision`, and no theorem below depends on
  which outcome a `growthCollision` input actually produces.

An uncaught exception from `merge` aborts `_process_table` (and the whole
conversion), hence the `Except` threading.  The model assumes `rowspan ≥ 1`
and `colspan ≥ 1` (the HTML default; the claims' theorems hypothesise this),
so the Nat subtractions below agree with the Python arithmetic. -/

structure TCell where
  rowspan : Nat
  colspan : Nat
deriving DecidableEq

/-- A merged region of the python-docx table: row/column bounds, inclusive. -/
structure GridRect where
  top : Nat
  left : Nat
  bottom : Nat
  right : Nat
deriving DecidableEq

/-- Does the region contain grid position `(r, c)`? -/
def rectContains (rect : GridRect) (r c : Nat) : Bool :=
  rect.top ≤ r && r ≤ rect.bottom && rect.left ≤ c && c ≤ rect.right

/-- The extent of the cell `table.cell(r, c)` resolves to: the covering
merged region if there is one, else the fresh 1×1 cell at `(r, c)`. -/
def regionAt (regions : List GridRect) (r c : Nat) : GridRect :=
  match regions.find? (fun rect => rectContains rect r c) with
  | some rect => rect
  | none => ⟨r, c, r, c⟩

/-- Do two regions share a grid position? -/
def rectsOverlap (a b : GridRect) : Bool :=
  max a.top b.top ≤ min a.bottom b.bottom &&
  max a.left b.left ≤ min a.right b.right

/-- Is `inner` entirely inside `outer`? -/
def subRect (inner outer : GridRect) : Bool :=
  outer.top ≤ inner.top && inner.bottom ≤ outer.bottom &&
  outer.left ≤ inner.left && inner.right ≤ outer.right

/-- Why a `merge` call did not produce a clean bounding-box region:
`invalidSpan` for the `InvalidSpanError` raises of `_span_dimensions`,
`growthCollision` for growth over a region crossing the box boundary (where
python-docx raises `InvalidSpanError` or `ValueError`, or corrupts the `tc`
geometry; see the section comment). -/
inductive SpanError where
  | invalidSpan
  | growthCollision
deriving DecidableEq

/-- A merge operation: given the existing regions, the target cell position
and the far-corner cell position, produce the realised region and the new
region list, or fail. -/
def MergeOp :=
  List GridRect → Nat → Nat → Nat → Nat →
    Except SpanError (GridRect × List GridRect)

/-- `target_cell.merge(merge_cell)` (line 750) as python-docx executes it:
resolve both positions to their extents, apply the `_span_dimensions` checks
(the tee condition below unfolds python-docx's `top_most`/`left_most`
selection: one extent starts strictly first and ends strictly later on that
axis), and realise the bounding box, absorbing regions entirely inside it. -/
def dxMergeOp : MergeOp := fun regions ar ac br bc =>
  let a := regionAt regions ar ac
  let b := regionAt regions br bc
  if (a.top = b.top ∧ a.bottom ≠ b.bottom) ∨
     (a.left = b.left ∧ a.right ≠ b.right) then
    .error .invalidSpan
  else if (a.top < b.top ∧ b.bottom < a.bottom) ∨
          (b.top < a.top ∧ a.bottom < b.bottom) ∨
          (a.left < b.left ∧ b.right < a.right) ∨
          (b.left < a.left ∧ a.right < b.right) then
    .error .invalidSpan
  else
    let box : GridRect := ⟨min a.top b.top, min a.left b.left,
                           max a.bottom b.bottom, max a.right b.right⟩
    if regions.all (fun rect => !(rectsOverlap rect box) || subRect rect box) then
      .ok (box, box :: regions.filter (fun rect => !(subRect rect box)))
    else
      .error .growthCollision

/-- The geometry the claim describes, as a merge operation: each merge is an
independent clamped rectangle from the target position to the far corner,
simply added to the region list.  This is the claim's predicted layout (the
reference side of the refinement theorem), not a model of python-docx. -/
def claimMergeOp : MergeOp := fun regions ar ac br bc =>
  .ok (⟨ar, ac, br, bc⟩, ⟨ar, ac, br, bc⟩ :: regions)

/-- One processed cell: where the source placed it, its declared spans, and
the region its merge realised (the cell itself when no merge was issued). -/
structure DxPlacement where
  row : Nat
  col : Nat
  rowspan : Nat
  colspan : Nat
  region : GridRect
deriving DecidableEq

/-- Maximum column count: the maximum over rows of the sum of `colspan`s
(line 701-705). -/
def maxCols (rows : List (List TCell)) : Nat :=
  rows.foldl (fun m r => max m (r.foldl (fun a c => a + c.colspan) 0)) 0

/-- The skip loop (line 732-733): advance while the position resolves to a
cell anchored in another row.  Fuel `cLimit - colIdx` suffices because the
loop also stops at `cLimit`. -/
def skipToFree (regions : List GridRect) (i cLimit : Nat) : Nat → Nat → Nat
  | 0, colIdx => colIdx
  | fuel + 1, colIdx =>
    if colIdx < cLimit ∧ (regionAt regions i colIdx).top ≠ i then
      skipToFree regions i cLimit fuel (colIdx + 1)
    else colIdx

/-- Processing the cells of row `i` (lines 726-777, content handling elided):
find the next free column, stop the row (`break`) when past the last column,
clamp the far corner to the grid (lines 744-745), issue the merge when the
clamped region is larger than one cell (the two nested span tests of lines
742 and 747, conjoined), and advance by the declared `colspan` (line 777).
The merge operation is a parameter so that the same placement loop can run
against python-docx (`dxMergeOp`) and against the claim's predicted layout
(`claimMergeOp`). -/
def runCells (op : MergeOp) (R C i : Nat) :
    List TCell → Nat → List GridRect →
      Except SpanError (List DxPlacement × List GridRect)
  | [], _, regions => .ok ([], regions)
  | cell :: rest, colIdx, regions =>
    let c0 := skipToFree regions i C (C - colIdx) colIdx
    if c0 < C then
      let er := min (i + cell.rowspan - 1) (R - 1)
      let ec := min (c0 + cell.colspan - 1) (C - 1)
      if (1 < cell.rowspan ∨ 1 < cell.colspan) ∧ (i < er ∨ c0 < ec) then
        match op regions i c0 er ec with
        | .error e => .error e
        | .ok (box, regions2) =>
          match runCells op R C i rest (c0 + cell.colspan) regions2 with
          | .error e => .error e
          | .ok (ps, regions3) =>
            .ok (⟨i, c0, cell.rowspan, cell.colspan, box⟩ :: ps, regions3)
      else
        match runCells op R C i rest (c0 + cell.colspan) regions with
        | .error e => .error e
        | .ok (ps, regions3) =>
          .ok (⟨i, c0, cell.rowspan, cell.colspan, ⟨i, c0, i, c0⟩⟩ :: ps, regions3)
    else .ok ([], regions)

/-- Processing all rows in order, threading the region state. -/
def runRows (op : MergeOp) (R C : Nat) :
    List (List TCell) → Nat → List GridRect →
      Except SpanError (List DxPlacement × List GridRect)
  | [], _, regions => .ok ([], regions)
  | r :: rs, i, regions =>
    match runCells op R C i r 0 regions with
    | .error e => .error e
    | .ok (ps, regions2) =>
      match runRows op R C rs (i + 1) regions2 with
      | .error e => .error e
      | .ok (ps2, regions3) => .ok (ps ++ ps2, regions3)

/-- `DocxConverter._process_table` reduced to its merge geometry: an empty
table or a zero-column table produces nothing (lines 696-709); otherwise every
row's cells are placed on the fresh `len(rows) × max_cols` grid with
python-docx's merge semantics, an uncaught merge exception aborting the
conversion. -/
def processTableDocx (rows : List (List TCell)) :
    Except SpanError (List DxPlacement × List GridRect) :=
  let R := rows.length
  let C := maxCols rows
  if R = 0 ∨ C = 0 then .ok ([], [])
  else runRows dxMergeOp R C rows 0 []

/-- The layout the claim predicts for the same table: the placement loop run
with independent clamped-rectangle merges. -/
def claimedTable (rows : List (List TCell)) :
    Except SpanError (List DxPlacement × List GridRect) :=
  let R := rows.length
  let C := maxCols rows
  if R = 0 ∨ C = 0 then .ok ([], [])
  else runRows claimMergeOp R C rows 0 []

/-- The placements of the claim's predicted layout. -/
def claimedPlacements (rows : List (List TCell)) : List DxPlacement :=
  match claimedTable rows with
  | .ok (ps, _) => ps
  | .error _ => []

/-- The merge regions of the claim's predicted layout. -/
def claimedRegions (rows : List (List TCell)) : List GridRect :=
  match claimedTable rows with
  | .ok (_, regs) => regs
  | .error _ => []

/-! ## The document tree walk (`DocxConverter._process_element`)

HTML nodes are a tag with attributes and children, or bare text.  The walk
emits the ordered block-level output units; each is paired with the section
context (`current_section`) in force when it was emitted.  Image embedding
(`doc.add_picture`) is external I/O, abstracted by an `embedOk` oracle saying
whether embedding the given `src` succeeds. -/

inductive HNode where
  | elem (name : String) (attrs : List (String × String)) (children : List HNode)
  | text (s : String)

mutual
/-- BeautifulSoup `element.get_text()`: all descendant text concatenated. -/
def getText : HNode → String
  | .text s => s
  | .elem _ _ cs => getTextList cs
def getTextList : List HNode → String
  | [] => ""
  | c :: cs => getText c ++ getTextList cs
end

def elemOf : HNode → Option Elem
  | .elem name attrs _ => some ⟨name, attrs⟩
  | .text _ => none

/-- Section classes recognized on a `div`, in the source's `elif` order
(lines 528-545). -/
def updateSection (classes : List String) (sect : Option String) : Option String :=
  if classes.contains "cover" then some "cover"
  else if classes.contains "toc" then some "toc"
  else if classes.contains "abstract" then some "abstract"
  else if classes.contains "keywords" then some "keywords"
  else if classes.contains "references" then some "references"
  else if classes.contains "acknowledgments" then some "acknowledgments"
  else sect

/-- Output units of the walk. -/
inductive Block where
  | heading (level : Nat) (txt : String)
  | para (txt : String)
  | listItem (ordered : Bool) (txt : String)
  | tableBlock (rowCount colCount : Nat)
  | image (src : String)
  | placeholder (txt : String)
deriving DecidableEq

/-- Heading level (lines 560-574): the recognized heading classes force levels
1/2/3; otherwise the tag's own numeric level. -/
def headingLevel (name : String) (classes : List String) : Nat :=
  if classes.contains "chapter-title" then 1
  else if classes.contains "section-title" then 2
  else if classes.contains "subsection-title" then 3
  else if name = "h1" then 1 else if name = "h2" then 2 else 3

mutual
/-- All descendant `tr` elements in document order
(`find_all('tr', recursive=True)`, line 695). -/
def findTrs : HNode → List HNode
  | .text _ => []
  | .elem name attrs cs =>
    let sub := findTrsList cs
    if name = "tr" then .elem name attrs cs :: sub else sub
def findTrsList : List HNode → List HNode
  | [] => []
  | c :: cs => findTrs c ++ findTrsList cs
end

/-- Direct `td`/`th` children of a row (`find_all(['td','th'],
recursive=False)`, line 723). -/
def directCells (n : HNode) : List HNode :=
  match n with
  | .text _ => []
  | .elem _ _ cs =>
    cs.filter (fun c =>
      match c with
      | .elem nm _ _ => nm = "td" || nm = "th"
      | .text _ => false)

/-- Direct `li` children of a list (`find_all('li', recursive=False)`,
line 648). -/
def directLis (cs : List HNode) : List HNode :=
  cs.filter (fun c =>
    match c with
    | .elem nm _ _ => nm = "li"
    | .text _ => false)

/-- `int(cell.get('colspan', 1))` / `rowspan` alike: a missing attribute
defaults to 1.  (A present non-numeric attribute would raise in Python; the
claims only involve numeric spans, modelled via `digitsVal`.) -/
def spanAttr (n : HNode) (key : String) : Nat :=
  match n with
  | .text _ => 1
  | .elem _ attrs _ =>
    match lookupA attrs key with
    | none => 1
    | some s => digitsVal (s.toList)

/-- The declared span grid of an HTML table element, feeding
`processTableDocx`. -/
def tableCellsOf (n : HNode) : List (List TCell) :=
  (findTrs n).map (fun row =>
    (directCells row).map (fun c => ⟨spanAttr c "rowspan", spanAttr c "colspan"⟩))

/-! The walk (`_process_element`), returning the emitted blocks paired with
the section context in force.  Branch order follows the source: text nodes
first, then `table` (with `return`), then `div` (section update, recursion
into children, `return`), then headings / paragraphs / lists / images, and
finally the catch-all recursion into children for any tag not in
the seven block tags div, p, h1, h2, h3, ul, ol (which includes `img`, with
or without a usable `src`). -/

mutual
/-- One node of the walk. -/
def processElement (embedOk : String → Bool) :
    HNode → Option String → List (Block × Option String)
  | .text _, _ => []
  | .elem name attrs children, sect =>
    if name = "table" then
      let cells := tableCellsOf (.elem name attrs children)
      if cells.length = 0 || maxCols cells = 0 then []
      else [(.tableBlock cells.length (maxCols cells), sect)]
    else if name = "div" then
      processChildren embedOk children
        (updateSection (classesOf ⟨name, attrs⟩) sect)
    else
      let classes := classesOf ⟨name, attrs⟩
      let main : List (Block × Option String) :=
        if name = "h1" || name = "h2" || name = "h3" then
          [(.heading (headingLevel name classes) (pyStrip (getTextList children)), sect)]
        else if name = "p" then
          [(.para (pyStrip (getTextList children)), sect)]
        else if name = "ul" || name = "ol" then
          (directLis children).map
            (fun li => (.listItem (name = "ol") (pyStrip (getText li)), sect))
        else if name = "img" && (lookupA attrs "src").getD "" ≠ "" then
          let src := (lookupA attrs "src").getD ""
          if embedOk src then [(.image src, sect)]
          else [(.placeholder ("[图片: " ++ ((lookupA attrs "alt").getD src) ++ "]"), sect)]
        else []
      let recur :=
        if name = "div" || name = "p" || name = "h1" || name = "h2" ||
           name = "h3" || name = "ul" || name = "ol" then []
        else processChildren embedOk children sect
      main ++ recur
def processChildren (embedOk : String → Bool) :
    List HNode → Option String → List (Block × Option String)
  | [], _ => []
  | c :: cs, sect =>
    processElement embedOk c sect ++ processChildren embedOk cs sect
end

/-! ## Token service (`TokenService.generate_short_token`)

The method's control flow on `expires_in`: `int(expires_in) if expires_in is
not None else None` inside `try/except (ValueError, TypeError)` yielding
`None` on failure, then `exp_time = int(time.time()) + expires_in_int`, which
raises `TypeError` (uncaught) when `expires_in_int` is `None`.  The token body
encodes `exp_time` with `int(exp_time).to_bytes(4, 'big')`, which raises
`OverflowError` for a negative or ≥ 2^32 value.  Randomness and the md5/sha256
digests do not affect which branch is taken, so the result abstracts the token
to the data determined by the inputs. -/

/-- The subset of Python values relevant to `expires_in`. -/
inductive PyVal where
  | intV (n : Int)
  | strV (s : String)
  | noneV
deriving DecidableEq

inductive PyError where
  | typeError
  | overflowError
deriving DecidableEq

/-- Python `int("...")`: optional surrounding whitespace, optional sign, one
or more decimal digits; anything else raises `ValueError` (modelled `none`). -/
def pyIntOfStr (s : String) : Option Int :=
  match trimL s.toList with
  | '-' :: ds =>
    if ds ≠ [] && ds.all Char.isDigit then some (-(digitsVal ds : Int)) else none
  | '+' :: ds =>
    if ds ≠ [] && ds.all Char.isDigit then some (digitsVal ds : Int) else none
  | ds =>
    if ds ≠ [] && ds.all Char.isDigit then some (digitsVal ds : Int) else none

/-- `int(v)` for the modelled values, with raised errors collapsed to `none`
(the source catches `ValueError` and `TypeError` here). -/
def pyIntOf : PyVal → Option Int
  | .intV n => some n
  | .strV s => pyIntOfStr s
  | .noneV => none

/-- The data of a generated token that is determined by the inputs. -/
structure TokenData where
  expTime : Int
  fileId : String
deriving DecidableEq

/-- `generate_short_token(file_id, expires_in)` at current epoch-second `now`;
an omitted `expires_in` is the declared default `None` (`PyVal.noneV`). -/
def generate_short_token (now : Int) (fileId : String) (expiresIn : PyVal) :
    Except PyError TokenData :=
  let expiresInInt : Option Int :=
    match expiresIn with
    | .noneV => none
    | v => pyIntOf v
  match expiresInInt with
  | none => .error .typeError        -- int(time.time()) + None
  | some k =>
    let expTime := now + k
    if 0 ≤ expTime && expTime < 2 ^ 32 then .ok ⟨expTime, fileId⟩
    else .error .overflowError       -- int(exp_time).to_bytes(4, 'big')

/-! ## Specification-side definitions and concrete fixtures used by the claims -/

/-- The descendant-combinator walk exactly as the specification words it
(spec §4.2): each preceding token, scanned right-to-left, must match some
strict ancestor, consumed in order; an ancestor that does not match the
current target token is skipped and the walk continues upward; success means
all tokens are consumed. -/
def specTokenWalk : List String → List Elem → Bool
  | [], _ => true
  | _ :: _, [] => false
  | t :: ts, a :: rest =>
    if simpleMatches t a then specTokenWalk ts rest
    else specTokenWalk (t :: ts) rest

/-- The specification's description of descendant-selector matching: the LAST
token matches the node itself, and the remaining tokens (right-to-left) are
consumed against the strict-ancestor chain. -/
def specDescendantMatches (tokens : List String) (e : Elem) (ancs : List Elem) :
    Bool :=
  match tokens.getLast? with
  | none => false
  | some last => simpleMatches last e && specTokenWalk tokens.dropLast.reverse ancs

/-- The stylesheet of the specification's specificity example: selectors `p`,
`.cls`, `p.cls` and `.outer .cls`, each declaring a conflicting property. -/
def cssExample : StyleSheet :=
  [("p", [("color", "v1")]),
   (".cls", [("color", "v2")]),
   ("p.cls", [("color", "v3")]),
   (".outer .cls", [("color", "v4")])]

/-- A `<p class="cls">` node. -/
def pClsElem : Elem := ⟨"p", [("class", "cls")]⟩

/-- The same node with an inline `style="color: v5"` attribute. -/
def pClsInline : Elem := ⟨"p", [("class", "cls"), ("style", "color: v5")]⟩

/-- Its ancestor chain: a `<div class="outer">` inside the document root. -/
def outerAncestors : List Elem :=
  [⟨"div", [("class", "outer")]⟩, ⟨"[document]", []⟩]

/-- A `<div class="references">` container with the given children. -/
def refsDiv (inner : List HNode) : HNode :=
  .elem "div" [("class", "references")] inner

/-- The claimed merge-region geometry for one placement on an `R × C` grid:
the anchor is inside the grid and the region starts at the anchor and spans
exactly `min(rowspan, R - row) × min(colspan, C - col)` cells. -/
abbrev placementDimsOk (R C : Nat) (p : DxPlacement) : Prop :=
  p.row < R ∧ p.col < C ∧
  p.region.top = p.row ∧ p.region.left = p.col ∧
  p.region.bottom + 1 = p.row + min p.rowspan (R - p.row) ∧
  p.region.right + 1 = p.col + min p.colspan (C - p.col)

/-- The part of the claimed geometry python-docx guarantees unconditionally on
success: the anchor is inside the grid and the realised region contains the
clamped `min(rowspan, R - row) × min(colspan, C - col)` rectangle at the
anchor (a colliding merge can only enlarge it to the bounding box with the
colliding region's extent). -/
abbrev placementContainsClamp (R C : Nat) (p : DxPlacement) : Prop :=
  p.row < R ∧ p.col < C ∧
  p.region.top ≤ p.row ∧ p.region.left ≤ p.col ∧
  p.row + min p.rowspan (R - p.row) ≤ p.region.bottom + 1 ∧
  p.col + min p.colspan (C - p.col) ≤ p.region.right + 1

/-- The table of the C2 counterexample: row 0 holds a `colspan=2` cell and a
`rowspan=2` cell, row 1 holds a single `colspan=3` cell. -/
def overlapTable : List (List TCell) := [[⟨1, 2⟩, ⟨2, 1⟩], [⟨1, 3⟩]]

/-- What `_process_table` does on `overlapTable`: the first two cells realise
their clamped regions (columns 0-1 of row 0; the vertical pair at column 2),
but the second-row cell's merge call resolves `table.cell(1, 2)` to the
vertical merge's anchor at `(0, 2)`, so it merges the bounding box of
`(1,0)-(1,0)` and `(0,2)-(1,2)`: the whole 2×3 grid, absorbing both earlier
regions. -/
def cexPlacements : List DxPlacement :=
  [⟨0, 0, 1, 2, ⟨0, 0, 0, 1⟩⟩, ⟨0, 2, 2, 1, ⟨0, 2, 1, 2⟩⟩,
   ⟨1, 0, 1, 3, ⟨0, 0, 1, 2⟩⟩]

/-- A table whose second row starts under a vertical merge: row 0 holds a
`rowspan=2` cell and a plain cell, row 1 holds a plain cell.  No two clamped
regions collide, so python-docx realises exactly the claimed layout. -/
def vertSkipTable : List (List TCell) := [[⟨2, 1⟩, ⟨1, 1⟩], [⟨1, 1⟩]]

/-! ## Helper lemmas -/

theorem splitCharL_ne_nil (sep : Char) (l : List Char) : splitCharL sep l ≠ [] := by
  cases l with
  | nil => simp [splitCharL]
  | cons x xs =>
    unfold splitCharL
    by_cases hx : x = sep
    · simp [hx]
    · simp only [hx, if_false]
      split <;> simp

theorem splitCharL_append (sep : Char) (xs ys : List Char) :
    splitCharL sep (xs ++ sep :: ys) = splitCharL sep xs ++ splitCharL sep ys := by
  induction xs with
  | nil => simp [splitCharL]
  | cons x xs ih =>
    simp only [List.cons_append, splitCharL, List.append_eq]
    by_cases hx : x = sep
    · subst hx
      simp only [eq_self_iff_true, if_true]
      rw [ih]
      rfl
    · rw [if_neg hx, if_neg hx, ih]
      have h1 := splitCharL_ne_nil sep xs
      match h2 : splitCharL sep xs with
      | [] => exact absurd h2 h1
      | s :: ss => rfl

theorem splitCharL_no_sep (sep : Char) (l : List Char)
    (h : l.contains sep = false) : splitCharL sep l = [l] := by
  induction l with
  | nil => rfl
  | cons x xs ih =>
    simp only [List.contains_cons, Bool.or_eq_false_iff] at h
    have hx : ¬ x = sep := by
      intro hxx
      subst hxx
      simp at h
    unfold splitCharL
    simp only [hx, if_false]
    rw [ih h.2]

theorem takeWhile_append_all (p : Char → Bool) (xs ys : List Char)
    (h : xs.all p = true) :
    (xs ++ ys).takeWhile p = xs ++ ys.takeWhile p := by
  induction xs with
  | nil => simp
  | cons x xs ih =>
    simp only [List.all_cons, Bool.and_eq_true] at h
    simp [List.takeWhile_cons, h.1, ih h.2]

theorem splitPredL_no_match :
    ∀ (p : Char → Bool) (l t : List Char), t ∈ splitPredL p l → ∀ c ∈ t, p c = false := by
  intro p l
  induction l with
  | nil =>
    intro t ht c hc
    simp only [splitPredL, List.mem_singleton] at ht
    subst ht
    simp at hc
  | cons x xs ih =>
    intro t ht c hc
    unfold splitPredL at ht
    by_cases hx : p x = true
    · rw [if_pos hx] at ht
      rcases List.mem_cons.mp ht with h3 | h3
      · subst h3
        simp at hc
      · exact ih t h3 c hc
    · rw [if_neg hx] at ht
      have hxf : p x = false := by
        cases hpw : p x
        · rfl
        · exact absurd hpw hx
      match h2 : splitPredL p xs, ht with
      | s :: ss, ht =>
        rcases List.mem_cons.mp ht with h3 | h3
        · subst h3
          rcases List.mem_cons.mp hc with h4 | h4
          · subst h4
            exact hxf
          · exact ih s (h2 ▸ List.mem_cons_self s ss) c h4
        · exact ih t (h2 ▸ List.mem_cons_of_mem s h3) c hc
      | [], ht =>
        simp only [List.mem_singleton] at ht
        subst ht
        rcases List.mem_singleton.mp hc with h4
        subst h4
        exact hxf

theorem splitWsL_no_ws :
    ∀ (l t : List Char), t ∈ splitWsL l → ∀ c ∈ t, pyWs c = false := by
  intro l t ht c hc
  unfold splitWsL at ht
  exact splitPredL_no_match pyWs l t (List.mem_of_mem_filter ht) c hc

theorem mem_of_hasSub_px :
    ∀ l : List Char, hasSubL ['p', 'x'] l = true → 'x' ∈ l := by
  intro l
  induction l with
  | nil => simp [hasSubL, leadsWith]
  | cons c rest ih =>
    intro h
    simp only [hasSubL, Bool.or_eq_true] at h
    rcases h with h | h
    · match rest, h with
      | [], h => simp [leadsWith] at h
      | d :: ds, h =>
        simp [leadsWith] at h
        rcases h with ⟨_, hx⟩
        subst hx
        exact List.mem_cons_of_mem _ (List.mem_cons_self _ _)
    · exact List.mem_cons_of_mem _ (ih h)

theorem lookupA_none_of_heads (m : List (String × ℚ)) (c : Char) (cs : List Char)
    (hc : c.isDigit = true)
    (hm : m.all (fun p => !(p.1.data.head?.any Char.isDigit)) = true) :
    lookupA m (String.mk (c :: cs)) = none := by
  induction m with
  | nil => rfl
  | cons p rest ih =>
    simp only [List.all_cons, Bool.and_eq_true] at hm
    unfold lookupA
    rw [if_neg]
    · exact ih hm.2
    · intro heq
      have hd := congrArg String.data heq
      have : p.1.data.head?.any Char.isDigit = true := by
        rw [hd]
        simpa using hc
      rw [this] at hm
      simp at hm

theorem specTokenWalk_eq_consume :
    ∀ (as : List Elem) (ts : List String),
      consumeAncestors ts as = specTokenWalk ts as := by
  intro as
  induction as with
  | nil =>
    intro ts
    cases ts with
    | nil => rfl
    | cons t tr => rfl
  | cons a rest ih =>
    intro ts
    cases ts with
    | nil => rfl
    | cons t tr =>
      simp only [consumeAncestors, specTokenWalk]
      by_cases hm : simpleMatches t a = true
      · rw [if_pos hm, if_pos hm, ih tr]
      · rw [if_neg hm, if_neg hm, ih (t :: tr)]

theorem startsDot_hasChar (s : String) (h : pyStartsDot s = true) :
    pyHasChar '.' s = true := by
  unfold pyStartsDot at h
  unfold pyHasChar
  cases hs : s.toList with
  | nil => rw [hs] at h; simp at h
  | cons c cs =>
    rw [hs] at h
    simp only [decide_eq_true_eq] at h
    simp [List.contains_cons, h]

/-! ## Claim C6 - CSS extraction never raises and drops malformed properties -/

/-- C6: CSS extraction never raises for malformed CSS.  Concretely, in
`p{color red;font-size:12pt}` the colon-less property is dropped while
`font-size` survives, and the `h1` rule extracted before the malformed
(unterminated) trailing rule is still returned.  In general, a property
fragment containing neither `:` nor `;` contributes nothing to the parsed
property map and leaves every other fragment's contribution unchanged. -/
theorem c6_css_extraction :
    extractCssRules "h1\x7bcolor:blue\x7dp\x7bcolor red;font-size:12pt\x7d .broken\x7b" =
      [("h1", [("color", "blue")]), ("p", [("font-size", "12pt")])] ∧
    ∀ xs bad ys : List Char, bad.contains ':' = false → bad.contains ';' = false →
      parsePropsL (xs ++ (';' :: (bad ++ (';' :: ys)))) =
        parsePropsL (xs ++ (';' :: ys)) := by
  constructor
  · decide
  · intro xs bad ys hcolon hsemi
    unfold parsePropsL
    rw [splitCharL_append ';' xs (bad ++ (';' :: ys)),
        splitCharL_append ';' bad ys,
        splitCharL_append ';' xs ys,
        splitCharL_no_sep ';' bad hsemi]
    simp only [List.append_assoc, List.foldl_append, List.foldl_cons, List.foldl_nil]
    rw [hcolon]
    simp

/-- Witness for C6's general part at a concrete malformed fragment. -/
theorem c6_css_extraction_witness :
    (("color red".toList.contains ':' = false) ∧
      parsePropsL ("font-weight:bold".toList ++
          (';' :: ("color red".toList ++ (';' :: "font-size:12pt".toList)))) =
        parsePropsL ("font-weight:bold".toList ++ (';' :: "font-size:12pt".toList))) :=
  ⟨by decide, c6_css_extraction.2 "font-weight:bold".toList "color red".toList
    "font-size:12pt".toList (by decide) (by decide)⟩

/-! ## Claim C8 - font-size resolution -/

/-- C8: the CJK token 小四 ("small fourth") resolves to exactly 12 pt, `14px`
resolves to 10.5 pt (0.75 pt per px), and a bare digit string or a
`pt`-suffixed digit string resolves to that many points. -/
theorem c8_font_size :
    fontSizePt "小四" = some 12 ∧
    fontSizePt "14px" = some (21 / 2) ∧
    fontSizePt "12pt" = some 12 ∧
    ∀ ds : List Char, ds ≠ [] → ds.all Char.isDigit = true →
      fontSizePt (String.mk ds) = some ((digitsVal ds : ℚ)) ∧
      fontSizePt (String.mk (ds ++ ['p', 't'])) = some ((digitsVal ds : ℚ)) := by
  refine ⟨rfl, ?_, ?_, ?_⟩
  · have h : fontSizePt "14px" = some ((digitsVal ['1', '4'] : ℚ) * (3 / 4)) := rfl
    have h2 : digitsVal ['1', '4'] = 14 := by decide
    rw [h, h2]
    norm_num
  · have h : fontSizePt "12pt" = some ((digitsVal ['1', '2'] : ℚ)) := rfl
    have h2 : digitsVal ['1', '2'] = 12 := by decide
    rw [h, h2]
    norm_num
  intro ds hne hall
  obtain ⟨c, cs, rfl⟩ : ∃ c cs, ds = c :: cs := by
    cases ds with
    | nil => exact absurd rfl hne
    | cons c cs => exact ⟨c, cs, rfl⟩
  have hcd : c.isDigit = true := by
    have := List.all_eq_true.mp hall c (List.mem_cons_self c cs)
    simpa using this
  constructor
  · unfold fontSizePt
    rw [lookupA_none_of_heads cnFontSizeMap c cs hcd (by decide)]
    have htl : (String.mk (c :: cs)).toList = c :: cs := rfl
    rw [htl]
    have ht : (c :: cs).takeWhile Char.isDigit = c :: cs := by
      have := takeWhile_append_all Char.isDigit (c :: cs) [] hall
      simpa using this
    have hparse : parseDecL (c :: cs) = some ((digitsVal (c :: cs) : ℚ), []) := by
      unfold parseDecL
      simp only [ht]
      simp [List.drop_length]
    rw [hparse]
    have hpx : pyHasSub "px" (String.mk (c :: cs)) = false := by
      cases hsub : pyHasSub "px" (String.mk (c :: cs))
      · rfl
      · exfalso
        have hx : 'x' ∈ c :: cs := mem_of_hasSub_px (c :: cs) hsub
        have := List.all_eq_true.mp hall 'x' hx
        simp at this
    simp [hpx]
  · unfold fontSizePt
    have hform : String.mk ((c :: cs) ++ ['p', 't']) =
        String.mk (c :: (cs ++ ['p', 't'])) := rfl
    rw [hform, lookupA_none_of_heads cnFontSizeMap c (cs ++ ['p', 't']) hcd (by decide)]
    have htl : (String.mk (c :: (cs ++ ['p', 't']))).toList =
        (c :: cs) ++ ['p', 't'] := rfl
    rw [htl]
    have ht : ((c :: cs) ++ ['p', 't']).takeWhile Char.isDigit = c :: cs := by
      rw [takeWhile_append_all Char.isDigit (c :: cs) ['p', 't'] hall]
      simp [List.takeWhile]
    have hparse : parseDecL ((c :: cs) ++ ['p', 't']) =
        some ((digitsVal (c :: cs) : ℚ), ['p', 't']) := by
      unfold parseDecL
      simp only [ht]
      have hdrop : ((c :: cs) ++ ['p', 't']).drop (c :: cs).length = ['p', 't'] :=
        List.drop_left (c :: cs) ['p', 't']
      simp [hdrop]
    rw [hparse]
    have hpx : pyHasSub "px" (String.mk (c :: (cs ++ ['p', 't']))) = false := by
      cases hsub : pyHasSub "px" (String.mk (c :: (cs ++ ['p', 't'])))
      · rfl
      · exfalso
        have hx : 'x' ∈ c :: (cs ++ ['p', 't']) :=
          mem_of_hasSub_px (c :: (cs ++ ['p', 't'])) hsub
        rcases List.mem_cons.mp hx with h1 | h1
        · rw [← h1] at hcd
          simp at hcd
        · rcases List.mem_append.mp h1 with h2 | h2
          · have := List.all_eq_true.mp hall 'x' (List.mem_cons_of_mem c h2)
            simp at this
          · simp at h2
    simp [hpx]

/-- Witness for C8's general part at the digit string `9`. -/
theorem c8_font_size_witness :
    fontSizePt (String.mk ['9']) = some ((digitsVal ['9'] : ℚ)) ∧
    fontSizePt (String.mk (['9'] ++ ['p', 't'])) = some ((digitsVal ['9'] : ℚ)) :=
  c8_font_size.2.2.2 ['9'] (by decide) (by decide)

/-! ## Claim C7 - default first-line indent -/

/-- C7: with `text-indent` absent, the `Normal` paragraph style and no
first-line indent set, the fixed 28 pt default is applied; a present, nonempty
`text-indent` value is never overridden by the default - an unparseable one
(such as the explicit zero `"0"`) leaves the paragraph untouched and a
parseable one sets exactly the parsed length. -/
theorem c7_text_indent_default :
    (∀ (styles : List (String × String)) (ps : ParaState),
      lookupA styles "text-indent" = none → ps.styleName = "Normal" →
      ps.firstLineIndent = none →
      (applyTextIndent styles ps).firstLineIndent = some 28) ∧
    (∀ (styles : List (String × String)) (ps : ParaState) (v : String),
      lookupA styles "text-indent" = some v → v ≠ "" →
      textIndentPts v = none → applyTextIndent styles ps = ps) ∧
    (∀ (styles : List (String × String)) (ps : ParaState) (v : String) (q : ℚ),
      lookupA styles "text-indent" = some v → v ≠ "" →
      textIndentPts v = some q →
      (applyTextIndent styles ps).firstLineIndent = some q) ∧
    applyTextIndent [("text-indent", "0")] ⟨"Normal", none⟩ = ⟨"Normal", none⟩ ∧
    (applyTextIndent [("text-indent", "2em")] ⟨"Normal", none⟩).firstLineIndent =
      some 24 := by
  refine ⟨?_, ?_, ?_, rfl, ?_⟩
  rotate_left 3
  · have h : (applyTextIndent [("text-indent", "2em")]
        ⟨"Normal", none⟩).firstLineIndent = some ((digitsVal ['2'] : ℚ) * 12) := rfl
    have h2 : digitsVal ['2'] = 2 := by decide
    rw [h, h2]
    norm_num
  · intro styles ps h1 h2 h3
    unfold applyTextIndent
    rw [h1]
    simp [h2, h3]
  · intro styles ps v h1 h2 h3
    unfold applyTextIndent
    rw [h1]
    simp only [Option.getD_some]
    rw [if_pos h2, h3]
  · intro styles ps v q h1 h2 h3
    unfold applyTextIndent
    rw [h1]
    simp only [Option.getD_some]
    rw [if_pos h2, h3]

/-- Witness for C7: an empty style map on a fresh `Normal` paragraph gets the
28 pt default; an explicit `"0"` stays untouched; an explicit `"2em"` sets the
parsed length (2 × 12 pt), never the default. -/
theorem c7_text_indent_default_witness :
    (applyTextIndent [] ⟨"Normal", none⟩).firstLineIndent = some 28 ∧
    applyTextIndent [("text-indent", "0")] ⟨"Heading 1", some 5⟩ = ⟨"Heading 1", some 5⟩ ∧
    (applyTextIndent [("text-indent", "2em")] ⟨"Normal", none⟩).firstLineIndent =
      some ((digitsVal ['2'] : ℚ) * 12) :=
  ⟨c7_text_indent_default.1 [] ⟨"Normal", none⟩ rfl rfl rfl,
   c7_text_indent_default.2.1 [("text-indent", "0")] ⟨"Heading 1", some 5⟩ "0"
     rfl (by decide) rfl,
   c7_text_indent_default.2.2.1 [("text-indent", "2em")] ⟨"Normal", none⟩ "2em"
     ((digitsVal ['2'] : ℚ) * 12) rfl (by decide) rfl⟩

/-! ## Claim C3 - run color application -/

/-- C3 counterexample: the claim says an unparseable `color` still forces
black (0,0,0) on every run, but on `color: red` the code's `else` branch is
not taken (the value is truthy) and the `#`-parse path silently does nothing:
the run keeps its inherited color. -/
theorem c3_counterexample :
    applyFontColor [("color", "red")] [none] = [none] ∧
    applyFontColor [("color", "red")] [none] ≠ [some (0, 0, 0)] := by decide

/-- C3 amended: the explicit black default is forced only when the `color`
property is absent (or empty); a parseable `#RRGGBB` value sets every run to
the parsed triplet; a present, nonempty but unparseable value leaves every
run's color unchanged (template-inherited colors can leak through). -/
theorem c3_amended :
    (∀ (styles : List (String × String)) (runs : RunColors),
      (lookupA styles "color").getD "" = "" →
      applyFontColor styles runs = runs.map (fun _ => some (0, 0, 0))) ∧
    (∀ (styles : List (String × String)) (runs : RunColors) (c : String)
      (rgb : Nat × Nat × Nat), lookupA styles "color" = some c →
      parseHexColor c = some rgb →
      applyFontColor styles runs = runs.map (fun _ => some rgb)) ∧
    (∀ (styles : List (String × String)) (runs : RunColors) (c : String),
      lookupA styles "color" = some c → c ≠ "" →
      parseHexColor c = none → applyFontColor styles runs = runs) := by
  refine ⟨?_, ?_, ?_⟩
  · intro styles runs h
    unfold applyFontColor
    rw [h]
    simp
  · intro styles runs c rgb hlk hparse
    have hc : c ≠ "" := by
      intro h0
      subst h0
      simp [parseHexColor] at hparse
    unfold applyFontColor
    rw [hlk]
    simp only [Option.getD_some]
    rw [if_pos hc, hparse]
  · intro styles runs c hlk hc hparse
    unfold applyFontColor
    rw [hlk]
    simp only [Option.getD_some]
    rw [if_pos hc, hparse]

/-- Witness for C3 amended: absent color forces black, `#3366CC` sets the
triplet (51,102,204), and `red` leaves the runs unchanged. -/
theorem c3_amended_witness :
    applyFontColor [] [none, some (9, 9, 9)] =
      [some (0, 0, 0), some (0, 0, 0)] ∧
    applyFontColor [("color", "#3366CC")] [none] = [some (51, 102, 204)] ∧
    applyFontColor [("color", "red")] [some (9, 9, 9)] = [some (9, 9, 9)] :=
  ⟨c3_amended.1 [] [none, some (9, 9, 9)] rfl,
   c3_amended.2.1 [("color", "#3366CC")] [none] "#3366CC" (51, 102, 204) rfl
     (by decide),
   c3_amended.2.2 [("color", "red")] [some (9, 9, 9)] "red" rfl (by decide)
     (by decide)⟩

/-! ## Claim C10 - token generation without a usable expires_in -/

/-- C10: `generate_short_token` with `expires_in` omitted (the default
`None`), explicitly `None`, or a value `int()` cannot convert raises
`TypeError` instead of returning a token - the constructor's
`default_expires` is never substituted - and a returned token always comes
from a convertible `expires_in`, whose integer value fixes the expiry. -/
theorem c10_token_expires :
    (∀ (now : Int) (fid : String),
      generate_short_token now fid .noneV = .error .typeError) ∧
    (∀ (now : Int) (fid : String) (v : PyVal), pyIntOf v = none →
      generate_short_token now fid v = .error .typeError) ∧
    (∀ (now : Int) (fid : String) (v : PyVal) (d : TokenData),
      generate_short_token now fid v = .ok d →
      ∃ k, pyIntOf v = some k ∧ d.expTime = now + k ∧ d.fileId = fid) := by
  refine ⟨?_, ?_, ?_⟩
  · intro now fid
    rfl
  · intro now fid v h
    cases v with
    | noneV => rfl
    | intV n => simp [pyIntOf] at h
    | strV s =>
      unfold generate_short_token
      simp only [pyIntOf] at h
      simp [pyIntOf, h]
  · intro now fid v d h
    cases v with
    | noneV => simp [generate_short_token] at h
    | intV n =>
      refine ⟨n, rfl, ?_⟩
      unfold generate_short_token at h
      simp only [pyIntOf] at h
      split at h
      · injection h with h
        subst h
        exact ⟨rfl, rfl⟩
      · exact absurd h (by simp)
    | strV s =>
      cases hps : pyIntOfStr s with
      | none =>
        unfold generate_short_token at h
        simp only [pyIntOf, hps] at h
        simp at h
      | some k =>
        refine ⟨k, by simp [pyIntOf, hps], ?_⟩
        unfold generate_short_token at h
        simp only [pyIntOf, hps] at h
        split at h
        · injection h with h
          subst h
          exact ⟨rfl, rfl⟩
        · exact absurd h (by simp)

/-- Witness for C10: an unconvertible string raises, and a successful token
determines its expiry from `now + expires_in`. -/
theorem c10_token_expires_witness :
    generate_short_token 1700000000 "file-1" (.strV "soon") = .error .typeError ∧
    (∃ k, pyIntOf (.intV 300) = some k ∧
      (1700000300 : Int) = 1700000000 + k ∧ ("file-1" : String) = "file-1") :=
  ⟨c10_token_expires.2.1 1700000000 "file-1" (.strV "soon") (by decide),
   c10_token_expires.2.2 1700000000 "file-1" (.intV 300) ⟨1700000300, "file-1"⟩
     rfl⟩

/-! ## Claim C1 - specificity resolution -/

/-- C1 counterexample: on a `<p class="cls">` inside `<div class="outer">`
with all four example selectors declaring `color`, the claim's expected winner
`.outer .cls` (claimed specificity 100 + 2 = 102) does not win: the resolved
value is the one from `p.cls` (the descendant selector starts with `.`, is
handled - and rejected - by the class-selector branch, and never matches). -/
theorem c1_counterexample :
    lookupA (getElementStyles cssExample pClsElem outerAncestors) "color" ≠
      some "v4" ∧
    lookupA (getElementStyles cssExample pClsElem outerAncestors) "color" =
      some "v3" := by decide

/-- C1 amended: matching selectors are merged in ascending specificity order
(element 1 < class 10 < element+class 11) with inline style last, but a
descendant selector containing a `.` - such as `.outer .cls` - never matches
any node (the class-selector branch returns first, and a class token can
never contain a space), so it receives no specificity at all; on the example
node the winner among the matching selectors is `p.cls`, and an inline
`style="color: v5"` beats all stylesheet rules. -/
theorem c1_amended :
    (∀ (e : Elem) (ancs : List Elem), e.name ≠ ".outer .cls" →
      selectorMatches ".outer .cls" e ancs = false) ∧
    lookupA (getElementStyles cssExample pClsElem outerAncestors) "color" =
      some "v3" ∧
    lookupA (getElementStyles cssExample pClsInline outerAncestors) "color" =
      some "v5" := by
  refine ⟨?_, by decide, by decide⟩
  intro e ancs hne
  unfold selectorMatches
  rw [if_neg (fun h => hne h.symm),
      if_pos (show pyStartsDot ".outer .cls" = true from by decide)]
  show (classesOf e).contains "outer .cls" = false
  cases hc : (classesOf e).contains "outer .cls"
  · rfl
  · exfalso
    have hmem : "outer .cls" ∈ classesOf e := by
      simpa using hc
    unfold classesOf at hmem
    cases hattr : getAttr e "class" with
    | none =>
      rw [hattr] at hmem
      simp at hmem
    | some a =>
      rw [hattr] at hmem
      unfold pySplitWs at hmem
      rcases List.mem_map.mp hmem with ⟨t, ht, hmk⟩
      have hteq : t = "outer .cls".toList := by
        have hdd := congrArg String.data hmk
        simpa using hdd
      subst hteq
      have h1 : pyWs ' ' = false :=
        splitWsL_no_ws a.toList _ ht ' ' (by decide)
      exact absurd h1 (by decide)

/-- Witness for C1's general part: `.outer .cls` matches no node, here the
example `<p class="cls">` itself. -/
theorem c1_amended_witness :
    selectorMatches ".outer .cls" pClsElem [] = false :=
  c1_amended.1 pClsElem [] (by decide)

/-! ## Claim C5 - descendant-combinator matching -/

/-- C5 counterexample: the claimed right-to-left ancestor-walk
characterization says `.outer .cls` matches a `p.cls` under a `div.outer`,
but the code returns `false` for it (the class-selector branch returns before
the descendant logic is reached). -/
theorem c5_counterexample :
    selectorMatches ".outer .cls" pClsElem [⟨"div", [("class", "outer")]⟩] =
      false ∧
    specDescendantMatches (pySplitWs ".outer .cls") pClsElem
      [⟨"div", [("class", "outer")]⟩] = true := by decide

/-- C5 amended: the claimed characterization (last token matches the node;
earlier tokens consumed right-to-left against the strict-ancestor chain,
skipping non-matching ancestors) holds exactly for descendant selectors that
contain no `.` (and differ from the node's tag name, as any selector with a
space does for real tag names); a descendant selector containing `.` is
intercepted by the class / element+class branches and never matches. -/
theorem c5_amended :
    ∀ (sel : String) (e : Elem) (ancs : List Elem),
      pyHasChar ' ' sel = true → pyHasChar '.' sel = false → sel ≠ e.name →
      selectorMatches sel e ancs = specDescendantMatches (pySplitWs sel) e ancs := by
  intro sel e ancs hsp hdot hname
  unfold selectorMatches
  have hsd : pyStartsDot sel = false := by
    cases h : pyStartsDot sel
    · rfl
    · have := startsDot_hasChar sel h
      rw [hdot] at this
      exact absurd this (by simp)
  rw [if_neg hname,
      if_neg (show ¬ pyStartsDot sel = true by simp [hsd]),
      if_neg (show ¬ pyHasChar '.' sel = true by simp [hdot]),
      if_pos hsp]
  unfold specDescendantMatches
  cases hlast : (pySplitWs sel).getLast? with
  | none => simp only [hlast]
  | some last =>
    simp only [hlast]
    by_cases hm : simpleMatches last e = true
    · rw [if_pos hm]
      simp [hm, specTokenWalk_eq_consume ancs]
    · rw [if_neg hm]
      simp [hm]

/-- Witness for C5's amended equivalence on the dot-free selector `div p`. -/
theorem c5_amended_witness :
    selectorMatches "div p" ⟨"p", []⟩ [⟨"div", []⟩] =
      specDescendantMatches (pySplitWs "div p") ⟨"p", []⟩ [⟨"div", []⟩] :=
  c5_amended "div p" ⟨"p", []⟩ [⟨"div", []⟩] (by decide) (by decide) (by decide)

/-! ## Claim C4 - section context across sibling subtrees -/

/-- C4 counterexample: the claim says the section set inside a
`<div class="references">` is never restored for later siblings, but in
`<body><div class="references"><p>a</p></div><p>b</p></body>` paragraph `b`
is processed with the body's original section (`none`), not `references`:
the section value is a parameter of the recursive call and the enclosing
call's value is untouched when the subtree returns. -/
theorem c4_counterexample :
    processElement (fun _ => true)
      (.elem "body" []
        [refsDiv [.elem "p" [] [.text "a"]], .elem "p" [] [.text "b"]]) none =
      [(.para "a", some "references"), (.para "b", none)] ∧
    processElement (fun _ => true)
      (.elem "body" []
        [refsDiv [.elem "p" [] [.text "a"]], .elem "p" [] [.text "b"]]) none ≠
      [(.para "a", some "references"), (.para "b", some "references")] := by
  decide

/-- C4 amended: the section context is automatically scoped to the container's
subtree - a `<div class="references">` child is walked with
`Section::References`, while every sibling subtree after it is walked with
whatever section value the enclosing call already had. -/
theorem c4_amended :
    ∀ (embedOk : String → Bool) (inner rest : List HNode) (sect : Option String),
      processElement embedOk (.elem "body" [] (refsDiv inner :: rest)) sect =
        processChildren embedOk inner (some "references") ++
          processChildren embedOk rest sect := by
  intro embedOk inner rest sect
  simp [processElement, processChildren, refsDiv, updateSection, classesOf,
    getAttr, lookupA, pySplitWs, splitWsL, splitPredL, pyWs, tableCellsOf,
    findTrs, findTrsList]

/-! ## Claim C9 - images without a usable src -/

/-- C9: an `<img>` with no `src` attribute (or an empty one) emits no output
block at all - neither an embedded image nor the alt-text placeholder - while
an `<img>` with a nonempty `src` emits the embedded image when embedding
succeeds and the centered `[图片: alt]` placeholder paragraph when it fails
(falling back to the `src` when no `alt` exists); the walk always returns, so
conversion of the rest of the document continues either way. -/
theorem c9_img_no_src :
    (∀ (embedOk : String → Bool) (attrs : List (String × String))
      (sect : Option String), lookupA attrs "src" = none →
      processElement embedOk (.elem "img" attrs []) sect = []) ∧
    (∀ (embedOk : String → Bool) (attrs : List (String × String))
      (sect : Option String), lookupA attrs "src" = some "" →
      processElement embedOk (.elem "img" attrs []) sect = []) ∧
    (∀ (embedOk : String → Bool) (attrs : List (String × String))
      (sect : Option String) (src : String),
      lookupA attrs "src" = some src → src ≠ "" →
      processElement embedOk (.elem "img" attrs []) sect =
        (if embedOk src then [(.image src, sect)]
         else [(.placeholder ("[图片: " ++ ((lookupA attrs "alt").getD src) ++ "]"),
                sect)])) := by
  refine ⟨?_, ?_, ?_⟩
  · intro embedOk attrs sect h
    simp [processElement, processChildren, h]
  · intro embedOk attrs sect h
    simp [processElement, processChildren, h]
  · intro embedOk attrs sect src h hne
    simp only [processElement, processChildren]
    simp [h, hne]

/-- Witness for C9: a bare `<img>`, one with `src=""`, and one whose embedding
fails with an alt text. -/
theorem c9_img_no_src_witness :
    processElement (fun _ => false) (.elem "img" [] []) none = [] ∧
    processElement (fun _ => false) (.elem "img" [("src", "")] []) none = [] ∧
    processElement (fun _ => false)
      (.elem "img" [("src", "x.png"), ("alt", "diagram")] []) none =
      (if (fun (_ : String) => false) "x.png" then [(.image "x.png", none)]
       else [(.placeholder ("[图片: " ++
          ((lookupA [("src", "x.png"), ("alt", "diagram")] "alt").getD "x.png") ++
          "]"), none)]) :=
  ⟨c9_img_no_src.1 (fun _ => false) [] none rfl,
   c9_img_no_src.2.1 (fun _ => false) [("src", "")] none rfl,
   c9_img_no_src.2.2 (fun _ => false) [("src", "x.png"), ("alt", "diagram")]
     none "x.png" rfl (by decide)⟩

/-! ## Claim C2 - table merge geometry

Supporting lemmas about the region state, then the bisimulation between the
python-docx run and the claim's predicted layout on collision-free tables. -/

theorem regionAt_bounds (regions : List GridRect) (r c : Nat) :
    (regionAt regions r c).top ≤ r ∧ r ≤ (regionAt regions r c).bottom ∧
    (regionAt regions r c).left ≤ c ∧ c ≤ (regionAt regions r c).right := by
  unfold regionAt
  cases hf : regions.find? (fun rect => rectContains rect r c) with
  | none => simp
  | some rect =>
    have h := List.find?_some hf
    simp only [rectContains, Bool.and_eq_true, decide_eq_true_eq] at h
    exact ⟨h.1.1.1, h.1.1.2, h.1.2, h.2⟩

theorem regionAt_not_covered (regions : List GridRect) (r c : Nat)
    (h : ∀ rect ∈ regions, rectContains rect r c = false) :
    regionAt regions r c = ⟨r, c, r, c⟩ := by
  unfold regionAt
  have hf : regions.find? (fun rect => rectContains rect r c) = none := by
    rw [List.find?_eq_none]
    intro rect hmem
    simp [h rect hmem]
  rw [hf]

theorem overlap_of_contains (rect box : GridRect) (r c : Nat)
    (h1 : rectContains rect r c = true) (h2 : rectContains box r c = true) :
    rectsOverlap rect box = true := by
  simp only [rectContains, Bool.and_eq_true, decide_eq_true_eq] at h1 h2
  simp only [rectsOverlap, Bool.and_eq_true, decide_eq_true_eq]
  omega

theorem overlap_of_subRect (rect box : GridRect)
    (h1 : rect.top ≤ rect.bottom) (h2 : rect.left ≤ rect.right)
    (h : subRect rect box = true) : rectsOverlap rect box = true := by
  simp only [subRect, Bool.and_eq_true, decide_eq_true_eq] at h
  simp only [rectsOverlap, Bool.and_eq_true, decide_eq_true_eq]
  omega

theorem rectsOverlap_comm (a b : GridRect) :
    rectsOverlap a b = rectsOverlap b a := by
  simp only [rectsOverlap]
  rw [Nat.max_comm a.top, Nat.min_comm a.bottom,
      Nat.max_comm a.left, Nat.min_comm a.right]

/-- A merge whose target and far corner are both uncovered and whose clamped
rectangle touches no existing region realises exactly that rectangle: both
extents are 1×1 so the span checks pass, the bounding box is the rectangle
itself, and growth absorbs nothing. -/
theorem dxMergeOp_fresh (regions : List GridRect) (i c0 er ec : Nat)
    (hier : i ≤ er) (hcec : c0 ≤ ec)
    (hno : ∀ rect ∈ regions, rectsOverlap rect ⟨i, c0, er, ec⟩ = false)
    (hwf : ∀ rect ∈ regions, rect.top ≤ rect.bottom ∧ rect.left ≤ rect.right) :
    dxMergeOp regions i c0 er ec =
      .ok (⟨i, c0, er, ec⟩, ⟨i, c0, er, ec⟩ :: regions) := by
  have hfreshA : regionAt regions i c0 = ⟨i, c0, i, c0⟩ := by
    apply regionAt_not_covered
    intro rect hr
    cases hcc : rectContains rect i c0 with
    | false => rfl
    | true =>
      have hov := overlap_of_contains rect ⟨i, c0, er, ec⟩ i c0 hcc (by
        simp only [rectContains, Bool.and_eq_true, decide_eq_true_eq]
        omega)
      rw [hno rect hr] at hov
      exact absurd hov (by simp)
  have hfreshB : regionAt regions er ec = ⟨er, ec, er, ec⟩ := by
    apply regionAt_not_covered
    intro rect hr
    cases hcc : rectContains rect er ec with
    | false => rfl
    | true =>
      have hov := overlap_of_contains rect ⟨i, c0, er, ec⟩ er ec hcc (by
        simp only [rectContains, Bool.and_eq_true, decide_eq_true_eq]
        omega)
      rw [hno rect hr] at hov
      exact absurd hov (by simp)
  have hbox : (⟨min i er, min c0 ec, max i er, max c0 ec⟩ : GridRect) =
      ⟨i, c0, er, ec⟩ := by
    rw [Nat.min_eq_left hier, Nat.min_eq_left hcec,
        Nat.max_eq_right hier, Nat.max_eq_right hcec]
  have hchk : regions.all (fun rect =>
      !(rectsOverlap rect ⟨i, c0, er, ec⟩) ||
        subRect rect ⟨i, c0, er, ec⟩) = true := by
    rw [List.all_eq_true]
    intro rect hr
    simp [hno rect hr]
  have hfilter : regions.filter
      (fun rect => !(subRect rect ⟨i, c0, er, ec⟩)) = regions := by
    rw [List.filter_eq_self]
    intro rect hr
    cases hsub : subRect rect ⟨i, c0, er, ec⟩ with
    | false => rfl
    | true =>
      have hov := overlap_of_subRect rect ⟨i, c0, er, ec⟩
        (hwf rect hr).1 (hwf rect hr).2 hsub
      rw [hno rect hr] at hov
      exact absurd hov (by simp)
  simp only [dxMergeOp]
  rw [hfreshA, hfreshB]
  rw [if_neg (by dsimp only; omega), if_neg (by dsimp only; omega)]
  dsimp only
  rw [hbox, if_pos hchk, hfilter]

/-- On success the realised box contains the target position and the far
corner, because each is inside its own resolved extent. -/
theorem dxMergeOp_box_bounds (regions : List GridRect) (ar ac br bc : Nat)
    (box : GridRect) (regs2 : List GridRect)
    (h : dxMergeOp regions ar ac br bc = .ok (box, regs2)) :
    box.top ≤ ar ∧ box.left ≤ ac ∧ br ≤ box.bottom ∧ bc ≤ box.right := by
  have hA := regionAt_bounds regions ar ac
  have hB := regionAt_bounds regions br bc
  simp only [dxMergeOp] at h
  split at h
  · exact absurd h (by simp)
  · split at h
    · exact absurd h (by simp)
    · split at h
      · simp only [Except.ok.injEq, Prod.mk.injEq] at h
        obtain ⟨hbox, -⟩ := h
        subst hbox
        dsimp only
        omega
      · exact absurd h (by simp)

theorem runCells_claim_sublist (R C i : Nat) :
    ∀ (cells : List TCell) (colIdx : Nat) (regions : List GridRect)
      (ps : List DxPlacement) (regs : List GridRect),
      runCells claimMergeOp R C i cells colIdx regions = .ok (ps, regs) →
      regions.Sublist regs := by
  intro cells
  induction cells with
  | nil =>
    intro colIdx regions ps regs h
    simp only [runCells, Except.ok.injEq, Prod.mk.injEq] at h
    rw [← h.2]
  | cons cell rest ih =>
    intro colIdx regions ps regs h
    simp only [runCells, claimMergeOp] at h
    split at h
    · split at h
      · split at h
        · exact absurd h (by simp)
        · rename_i ps1 regs1 heq
          simp only [Except.ok.injEq, Prod.mk.injEq] at h
          rw [← h.2]
          exact (List.sublist_cons_self _ _).trans (ih _ _ _ _ heq)
      · split at h
        · exact absurd h (by simp)
        · rename_i ps1 regs1 heq
          simp only [Except.ok.injEq, Prod.mk.injEq] at h
          rw [← h.2]
          exact ih _ _ _ _ heq
    · simp only [Except.ok.injEq, Prod.mk.injEq] at h
      rw [← h.2]

theorem runRows_claim_sublist (R C : Nat) :
    ∀ (rs : List (List TCell)) (i : Nat) (regions : List GridRect)
      (ps : List DxPlacement) (regs : List GridRect),
      runRows claimMergeOp R C rs i regions = .ok (ps, regs) →
      regions.Sublist regs := by
  intro rs
  induction rs with
  | nil =>
    intro i regions ps regs h
    simp only [runRows, Except.ok.injEq, Prod.mk.injEq] at h
    rw [← h.2]
  | cons r rest ih =>
    intro i regions ps regs h
    simp only [runRows] at h
    split at h
    · exact absurd h (by simp)
    · rename_i ps1 regs1 heq1
      split at h
      · exact absurd h (by simp)
      · rename_i ps2 regs2 heq2
        simp only [Except.ok.injEq, Prod.mk.injEq] at h
        rw [← h.2]
        exact (runCells_claim_sublist R C i r 0 regions ps1 regs1 heq1).trans
          (ih _ _ _ _ heq2)

theorem runCells_claim_ok (R C i : Nat) :
    ∀ (cells : List TCell) (colIdx : Nat) (regions : List GridRect),
      ∃ pr, runCells claimMergeOp R C i cells colIdx regions = .ok pr := by
  intro cells
  induction cells with
  | nil =>
    intro colIdx regions
    exact ⟨([], regions), rfl⟩
  | cons cell rest ih =>
    intro colIdx regions
    simp only [runCells, claimMergeOp]
    split
    · split
      · obtain ⟨⟨ps1, regs1⟩, hpr⟩ := ih _ _
        rw [hpr]
        exact ⟨_, rfl⟩
      · obtain ⟨⟨ps1, regs1⟩, hpr⟩ := ih _ _
        rw [hpr]
        exact ⟨_, rfl⟩
    · exact ⟨([], regions), rfl⟩

theorem runRows_claim_ok (R C : Nat) :
    ∀ (rs : List (List TCell)) (i : Nat) (regions : List GridRect),
      ∃ pr, runRows claimMergeOp R C rs i regions = .ok pr := by
  intro rs
  induction rs with
  | nil =>
    intro i regions
    exact ⟨([], regions), rfl⟩
  | cons r rest ih =>
    intro i regions
    obtain ⟨⟨ps1, regs1⟩, h1⟩ := runCells_claim_ok R C i r 0 regions
    obtain ⟨⟨ps2, regs2⟩, h2⟩ := ih (i + 1) regs1
    refine ⟨(ps1 ++ ps2, regs2), ?_⟩
    simp only [runRows, h1]
    simp only [h2]

theorem runCells_claim_dims (R C i : Nat) (hiR : i < R) :
    ∀ (cells : List TCell) (colIdx : Nat) (regions : List GridRect)
      (ps : List DxPlacement) (regs : List GridRect),
      (∀ cell ∈ cells, 1 ≤ cell.rowspan ∧ 1 ≤ cell.colspan) →
      runCells claimMergeOp R C i cells colIdx regions = .ok (ps, regs) →
      ∀ p ∈ ps, placementDimsOk R C p := by
  intro cells
  induction cells with
  | nil =>
    intro colIdx regions ps regs hspans h p hp
    simp only [runCells, Except.ok.injEq, Prod.mk.injEq] at h
    rw [← h.1] at hp
    simp at hp
  | cons cell rest ih =>
    intro colIdx regions ps regs hspans h p hp
    obtain ⟨hrs, hcs⟩ := hspans cell (List.mem_cons_self cell rest)
    simp only [runCells, claimMergeOp] at h
    split at h
    · rename_i hlt
      split at h
      · rename_i hdm
        split at h
        · exact absurd h (by simp)
        · rename_i ps1 regs1 heq
          simp only [Except.ok.injEq, Prod.mk.injEq] at h
          rw [← h.1] at hp
          simp only [List.mem_cons] at hp
          rcases hp with heqp | hmem
          · subst heqp
            refine ⟨hiR, hlt, rfl, rfl, ?_, ?_⟩ <;> · dsimp only; omega
          · exact ih _ _ _ _
              (fun c hc => hspans c (List.mem_cons_of_mem cell hc)) heq p hmem
      · rename_i hdm
        split at h
        · exact absurd h (by simp)
        · rename_i ps1 regs1 heq
          simp only [Except.ok.injEq, Prod.mk.injEq] at h
          rw [← h.1] at hp
          simp only [List.mem_cons] at hp
          rcases hp with heqp | hmem
          · subst heqp
            refine ⟨hiR, hlt, rfl, rfl, ?_, ?_⟩ <;> · dsimp only; omega
          · exact ih _ _ _ _
              (fun c hc => hspans c (List.mem_cons_of_mem cell hc)) heq p hmem
    · simp only [Except.ok.injEq, Prod.mk.injEq] at h
      rw [← h.1] at hp
      simp at hp

theorem runRows_claim_dims (R C : Nat) :
    ∀ (rs : List (List TCell)) (i : Nat) (regions : List GridRect)
      (ps : List DxPlacement) (regs : List GridRect),
      i + rs.length ≤ R →
      (∀ r ∈ rs, ∀ cell ∈ r, 1 ≤ cell.rowspan ∧ 1 ≤ cell.colspan) →
      runRows claimMergeOp R C rs i regions = .ok (ps, regs) →
      ∀ p ∈ ps, placementDimsOk R C p := by
  intro rs
  induction rs with
  | nil =>
    intro i regions ps regs hlen hspans h p hp
    simp only [runRows, Except.ok.injEq, Prod.mk.injEq] at h
    rw [← h.1] at hp
    simp at hp
  | cons r rest ih =>
    intro i regions ps regs hlen hspans h p hp
    simp only [runRows] at h
    split at h
    · exact absurd h (by simp)
    · rename_i ps1 regs1 heq1
      split at h
      · exact absurd h (by simp)
      · rename_i ps2 regs2 heq2
        simp only [Except.ok.injEq, Prod.mk.injEq] at h
        rw [← h.1] at hp
        simp only [List.mem_append] at hp
        rcases hp with hp | hp
        · exact runCells_claim_dims R C i
            (by simp only [List.length_cons] at hlen; omega) r 0 regions ps1 regs1
            (hspans r (List.mem_cons_self r rest)) heq1 p hp
        · exact ih (i + 1) regs1 ps2 regs2
            (by simp only [List.length_cons] at hlen; omega)
            (fun rr hrr => hspans rr (List.mem_cons_of_mem r hrr)) heq2 p hp

theorem runCells_dx_contains (R C i : Nat) (hiR : i < R) :
    ∀ (cells : List TCell) (colIdx : Nat) (regions : List GridRect)
      (ps : List DxPlacement) (regs : List GridRect),
      (∀ cell ∈ cells, 1 ≤ cell.rowspan ∧ 1 ≤ cell.colspan) →
      runCells dxMergeOp R C i cells colIdx regions = .ok (ps, regs) →
      ∀ p ∈ ps, placementContainsClamp R C p := by
  intro cells
  induction cells with
  | nil =>
    intro colIdx regions ps regs hspans h p hp
    simp only [runCells, Except.ok.injEq, Prod.mk.injEq] at h
    rw [← h.1] at hp
    simp at hp
  | cons cell rest ih =>
    intro colIdx regions ps regs hspans h p hp
    obtain ⟨hrs, hcs⟩ := hspans cell (List.mem_cons_self cell rest)
    simp only [runCells] at h
    split at h
    · rename_i hlt
      split at h
      · rename_i hdm
        split at h
        · exact absurd h (by simp)
        · rename_i box regions2 hop
          split at h
          · exact absurd h (by simp)
          · rename_i ps1 regs1 heq
            simp only [Except.ok.injEq, Prod.mk.injEq] at h
            rw [← h.1] at hp
            simp only [List.mem_cons] at hp
            rcases hp with heqp | hmem
            · subst heqp
              obtain ⟨hb1, hb2, hb3, hb4⟩ :=
                dxMergeOp_box_bounds _ _ _ _ _ _ _ hop
              refine ⟨hiR, hlt, hb1, hb2, ?_, ?_⟩ <;> · dsimp only; omega
            · exact ih _ _ _ _
                (fun c hc => hspans c (List.mem_cons_of_mem cell hc)) heq p hmem
      · rename_i hdm
        split at h
        · exact absurd h (by simp)
        · rename_i ps1 regs1 heq
          simp only [Except.ok.injEq, Prod.mk.injEq] at h
          rw [← h.1] at hp
          simp only [List.mem_cons] at hp
          rcases hp with heqp | hmem
          · subst heqp
            refine ⟨hiR, hlt, Nat.le_refl _, Nat.le_refl _, ?_, ?_⟩ <;>
              · dsimp only; omega
          · exact ih _ _ _ _
              (fun c hc => hspans c (List.mem_cons_of_mem cell hc)) heq p hmem
    · simp only [Except.ok.injEq, Prod.mk.injEq] at h
      rw [← h.1] at hp
      simp at hp

theorem runRows_dx_contains (R C : Nat) :
    ∀ (rs : List (List TCell)) (i : Nat) (regions : List GridRect)
      (ps : List DxPlacement) (regs : List GridRect),
      i + rs.length ≤ R →
      (∀ r ∈ rs, ∀ cell ∈ r, 1 ≤ cell.rowspan ∧ 1 ≤ cell.colspan) →
      runRows dxMergeOp R C rs i regions = .ok (ps, regs) →
      ∀ p ∈ ps, placementContainsClamp R C p := by
  intro rs
  induction rs with
  | nil =>
    intro i regions ps regs hlen hspans h p hp
    simp only [runRows, Except.ok.injEq, Prod.mk.injEq] at h
    rw [← h.1] at hp
    simp at hp
  | cons r rest ih =>
    intro i regions ps regs hlen hspans h p hp
    simp only [runRows] at h
    split at h
    · exact absurd h (by simp)
    · rename_i ps1 regs1 heq1
      split at h
      · exact absurd h (by simp)
      · rename_i ps2 regs2 heq2
        simp only [Except.ok.injEq, Prod.mk.injEq] at h
        rw [← h.1] at hp
        simp only [List.mem_append] at hp
        rcases hp with hp | hp
        · exact runCells_dx_contains R C i
            (by simp only [List.length_cons] at hlen; omega) r 0 regions ps1 regs1
            (hspans r (List.mem_cons_self r rest)) heq1 p hp
        · exact ih (i + 1) regs1 ps2 regs2
            (by simp only [List.length_cons] at hlen; omega)
            (fun rr hrr => hspans rr (List.mem_cons_of_mem r hrr)) heq2 p hp

/-- Bisimulation step: on a row whose remaining merges (as the claim predicts
them) are pairwise disjoint from each other and from the existing regions,
the python-docx run takes exactly the claim's steps: every merge target and
far corner resolves to a fresh 1×1 cell, so each bounding box is the clamped
rectangle and nothing is absorbed.  The well-formedness of the region state
(nonempty rectangles) is threaded through as part of the conclusion. -/
theorem runCells_bisim (R C i : Nat) (hiR : i < R) :
    ∀ (cells : List TCell) (colIdx : Nat) (regions : List GridRect)
      (ps : List DxPlacement) (regs : List GridRect),
      (∀ cell ∈ cells, 1 ≤ cell.rowspan ∧ 1 ≤ cell.colspan) →
      (∀ rect ∈ regions, rect.top ≤ rect.bottom ∧ rect.left ≤ rect.right) →
      runCells claimMergeOp R C i cells colIdx regions = .ok (ps, regs) →
      regs.Pairwise (fun x y => rectsOverlap x y = false) →
      runCells dxMergeOp R C i cells colIdx regions = .ok (ps, regs) ∧
        ∀ rect ∈ regs, rect.top ≤ rect.bottom ∧ rect.left ≤ rect.right := by
  intro cells
  induction cells with
  | nil =>
    intro colIdx regions ps regs hspans hwf h hpw
    simp only [runCells] at h ⊢
    simp only [Except.ok.injEq, Prod.mk.injEq] at h
    obtain ⟨hps, hregs⟩ := h
    constructor
    · rw [hps, hregs]
    · intro rect hr
      rw [← hregs] at hr
      exact hwf rect hr
  | cons cell rest ih =>
    intro colIdx regions ps regs hspans hwf h hpw
    obtain ⟨hrs, hcs⟩ := hspans cell (List.mem_cons_self cell rest)
    simp only [runCells, claimMergeOp] at h
    simp only [runCells]
    set c0 := skipToFree regions i C (C - colIdx) colIdx with hc0
    set er := min (i + cell.rowspan - 1) (R - 1) with her
    set ec := min (c0 + cell.colspan - 1) (C - 1) with hec
    split at h
    · rename_i hlt
      rw [if_pos hlt]
      split at h
      · rename_i hdm
        rw [if_pos hdm]
        split at h
        · exact absurd h (by simp)
        · rename_i ps1 regs1 heq
          simp only [Except.ok.injEq, Prod.mk.injEq] at h
          obtain ⟨hps, hregs⟩ := h
          rw [← hps, ← hregs]
          rw [← hregs] at hpw
          have hier : i ≤ er := by omega
          have hcec : c0 ≤ ec := by omega
          have hsub := runCells_claim_sublist R C i rest _ _ _ _ heq
          have hpw1 := hpw.sublist hsub
          rw [List.pairwise_cons] at hpw1
          obtain ⟨hno0, -⟩ := hpw1
          have hno : ∀ rect ∈ regions,
              rectsOverlap rect ⟨i, c0, er, ec⟩ = false := by
            intro rect hr
            rw [rectsOverlap_comm]
            exact hno0 rect hr
          have hfresh := dxMergeOp_fresh regions i c0 er ec hier hcec hno hwf
          have hwf2 : ∀ rect ∈ (⟨i, c0, er, ec⟩ : GridRect) :: regions,
              rect.top ≤ rect.bottom ∧ rect.left ≤ rect.right := by
            intro rect hr
            rcases List.mem_cons.mp hr with hrect | hr2
            · subst hrect
              exact ⟨hier, hcec⟩
            · exact hwf rect hr2
          obtain ⟨hdx, hwfout⟩ := ih (c0 + cell.colspan)
            ((⟨i, c0, er, ec⟩ : GridRect) :: regions) ps1 regs1
            (fun c hc => hspans c (List.mem_cons_of_mem cell hc)) hwf2 heq hpw
          refine ⟨?_, hwfout⟩
          simp only [hfresh]
          simp only [hdx]
      · rename_i hdm
        rw [if_neg hdm]
        split at h
        · exact absurd h (by simp)
        · rename_i ps1 regs1 heq
          simp only [Except.ok.injEq, Prod.mk.injEq] at h
          obtain ⟨hps, hregs⟩ := h
          rw [← hps, ← hregs]
          rw [← hregs] at hpw
          obtain ⟨hdx, hwfout⟩ := ih (c0 + cell.colspan) regions ps1 regs1
            (fun c hc => hspans c (List.mem_cons_of_mem cell hc)) hwf heq hpw
          refine ⟨?_, hwfout⟩
          simp only [hdx]
    · rename_i hlt
      rw [if_neg hlt]
      simp only [Except.ok.injEq, Prod.mk.injEq] at h
      obtain ⟨hps, hregs⟩ := h
      constructor
      · rw [hps, hregs]
      · intro rect hr
        rw [← hregs] at hr
        exact hwf rect hr

/-- Row-level bisimulation: threading `runCells_bisim` through the rows. -/
theorem runRows_bisim (R C : Nat) :
    ∀ (rs : List (List TCell)) (i : Nat) (regions : List GridRect)
      (ps : List DxPlacement) (regs : List GridRect),
      i + rs.length ≤ R →
      (∀ r ∈ rs, ∀ cell ∈ r, 1 ≤ cell.rowspan ∧ 1 ≤ cell.colspan) →
      (∀ rect ∈ regions, rect.top ≤ rect.bottom ∧ rect.left ≤ rect.right) →
      runRows claimMergeOp R C rs i regions = .ok (ps, regs) →
      regs.Pairwise (fun x y => rectsOverlap x y = false) →
      runRows dxMergeOp R C rs i regions = .ok (ps, regs) := by
  intro rs
  induction rs with
  | nil =>
    intro i regions ps regs hlen hspans hwf h hpw
    simpa only [runRows] using h
  | cons r rest ih =>
    intro i regions ps regs hlen hspans hwf h hpw
    simp only [runRows] at h ⊢
    split at h
    · exact absurd h (by simp)
    · rename_i ps1 regs1 heq1
      split at h
      · exact absurd h (by simp)
      · rename_i ps2 regs2 heq2
        simp only [Except.ok.injEq, Prod.mk.injEq] at h
        obtain ⟨hps, hregs⟩ := h
        rw [← hps, ← hregs]
        rw [← hregs] at hpw
        have hiR : i < R := by
          simp only [List.length_cons] at hlen
          omega
        have hsub := runRows_claim_sublist R C rest (i + 1) regs1 ps2 regs2 heq2
        have hpw1 := hpw.sublist hsub
        obtain ⟨hrow, hwf1⟩ := runCells_bisim R C i hiR r 0 regions ps1 regs1
          (hspans r (List.mem_cons_self r rest)) hwf heq1 hpw1
        have hrest := ih (i + 1) regs1 ps2 regs2
          (by simp only [List.length_cons] at hlen; omega)
          (fun rr hrr => hspans rr (List.mem_cons_of_mem r hrr)) hwf1 heq2 hpw
        simp only [hrow]
        simp only [hrest]

/-- C2 counterexample: on the 2×3 table whose first row declares a
`colspan=2` cell then a `rowspan=2` cell and whose second row declares a
single `colspan=3` cell, the second-row cell's merge call asks for the
clamped region (1,0)-(1,2), but `table.cell(1, 2)` resolves to the vertical
merge anchored at (0,2), so python-docx merges the bounding box of the two
extents: the whole 2×3 grid, absorbing both earlier regions.  The realised
region is 2×3 rather than the claimed `min(1, 2-1) × min(3, 3-0) = 1×3` and
it overlaps the other cells' regions, so the claimed exact-min geometry and
the claimed no-overlap invariant both fail. -/
theorem c2_counterexample :
    processTableDocx overlapTable = .ok (cexPlacements, [⟨0, 0, 1, 2⟩]) ∧
    ¬ ((∀ p ∈ cexPlacements,
          placementDimsOk overlapTable.length (maxCols overlapTable) p) ∧
        cexPlacements.Pairwise
          (fun p q => rectsOverlap p.region q.region = false)) :=
  ⟨rfl, by decide⟩

/-- C2 amended: for every table whose declared spans are at least 1,
(i) whenever the conversion succeeds, each placed cell's realised region
contains the clamped `min(r, R-i) × min(c, C-j)` rectangle at its anchor
inside the grid; (ii) whenever the claim's predicted clamped regions are
pairwise disjoint (no span collision), python-docx realises exactly the
claim's layout - the same placements and regions, hence regions of exactly
`min(r, R-i) × min(c, C-j)` cells anchored at `(i, j)` by (iii), placed left
to right at the next free column and never erroring; (iv) concretely, on
`vertSkipTable` the second-row cell lands at column 1 under the `rowspan=2`
cell and every region is the clamped rectangle.  When clamped spans collide,
the merge instead resolves the far corner to the colliding region's anchor
and realises the bounding box of both extents (see the counterexample), or
the conversion aborts with an uncaught merge exception. -/
theorem c2_amended :
    (∀ rows : List (List TCell),
      (∀ r ∈ rows, ∀ cell ∈ r, 1 ≤ cell.rowspan ∧ 1 ≤ cell.colspan) →
      ∀ out, processTableDocx rows = .ok out →
        ∀ p ∈ out.1, placementContainsClamp rows.length (maxCols rows) p) ∧
    (∀ rows : List (List TCell),
      (∀ r ∈ rows, ∀ cell ∈ r, 1 ≤ cell.rowspan ∧ 1 ≤ cell.colspan) →
      (claimedRegions rows).Pairwise (fun x y => rectsOverlap x y = false) →
      processTableDocx rows = claimedTable rows) ∧
    (∀ rows : List (List TCell),
      (∀ r ∈ rows, ∀ cell ∈ r, 1 ≤ cell.rowspan ∧ 1 ≤ cell.colspan) →
      ∀ p ∈ claimedPlacements rows,
        placementDimsOk rows.length (maxCols rows) p) ∧
    processTableDocx vertSkipTable =
      .ok ([⟨0, 0, 2, 1, ⟨0, 0, 1, 0⟩⟩, ⟨0, 1, 1, 1, ⟨0, 1, 0, 1⟩⟩,
            ⟨1, 1, 1, 1, ⟨1, 1, 1, 1⟩⟩], [⟨0, 0, 1, 0⟩]) := by
  refine ⟨?_, ?_, ?_, rfl⟩
  · intro rows hspans out hout p hp
    obtain ⟨ps, regs⟩ := out
    simp only [processTableDocx] at hout
    by_cases hz : rows.length = 0 ∨ maxCols rows = 0
    · rw [if_pos hz] at hout
      simp only [Except.ok.injEq, Prod.mk.injEq] at hout
      rw [← hout.1] at hp
      simp at hp
    · rw [if_neg hz] at hout
      exact runRows_dx_contains rows.length (maxCols rows) rows 0 [] ps regs
        (by omega) hspans hout p hp
  · intro rows hspans hpw
    simp only [processTableDocx, claimedTable]
    by_cases hz : rows.length = 0 ∨ maxCols rows = 0
    · rw [if_pos hz, if_pos hz]
    · rw [if_neg hz, if_neg hz]
      obtain ⟨⟨ps, regs⟩, hok⟩ :=
        runRows_claim_ok rows.length (maxCols rows) rows 0 []
      have hcr : claimedRegions rows = regs := by
        simp only [claimedRegions, claimedTable]
        rw [if_neg hz, hok]
      rw [hok]
      exact runRows_bisim rows.length (maxCols rows) rows 0 [] ps regs
        (by omega) hspans (by intro rect hr; simp at hr) hok (hcr ▸ hpw)
  · intro rows hspans p hp
    simp only [claimedPlacements, claimedTable] at hp
    by_cases hz : rows.length = 0 ∨ maxCols rows = 0
    · rw [if_pos hz] at hp
      simp at hp
    · rw [if_neg hz] at hp
      obtain ⟨⟨ps, regs⟩, hok⟩ :=
        runRows_claim_ok rows.length (maxCols rows) rows 0 []
      simp only [hok] at hp
      exact runRows_claim_dims rows.length (maxCols rows) rows 0 [] ps regs
        (by omega) hspans hok p hp

/-- Witness for C2 amended: on `vertSkipTable` the spans are ≥ 1 and the
claimed regions are collision-free, so part (ii) applies and the python-docx
run equals the claimed layout. -/
theorem c2_amended_witness :
    processTableDocx vertSkipTable = claimedTable vertSkipTable :=
  c2_amended.2.1 vertSkipTable (by decide) (by decide)
end Html2Doc
